import Mathlib

/-!
# Verification of the PyClASVi core (pyclasvi.py)

A shallow embedding of the core data structures and operations of
`src/pyclasvi.py` (Python Clang AST Viewer), together with theorems settling
the specification claims.

Modelling conventions, used throughout:

* Tk widgets are not modelled; only the state the Python code keeps in plain
  attributes (dicts, lists, counters, flags) is.  Where the code enables or
  disables a button (`config(state=...)`), the model keeps a `Bool` field for
  the buttons the claims mention.
* A `clang.cindex.Cursor` is modelled by the data the core actually reads from
  it: its `hash` (identity key used by `HashableObj`), its `kind.name` and its
  `spelling` (both used by `ASTOutputFrame.search`).  Cursor equality
  (`clang_equalCursors`) is modelled as structural equality of that data.
* Tk `Treeview` item ids (iids) are the strings Tk generates when
  `insert(...)` is called without an explicit id: `"I" + "%03X" % serial`,
  the serial counting up from 1 per insertion (`tkIID` below); the `nextIID`
  field of the model is that serial counter.  "Position creation order" is
  the allocation (insertion) order of these ids.  Python dicts preserve
  insertion order; they are modelled as association lists to which new keys
  are appended at the end.
* Python exceptions raised inside a Tk callback abort the callback, leaving
  the already-performed mutations in place; where a claim concerns such an
  exception (the `%` by zero in `go_search_forward`/`go_search_backward`),
  the operation is modelled in `Except`, with `.error` meaning "exception
  raised before any state mutation happened" (which is the case there: the
  right-hand side of the assignment raises first).
-/

set_option maxHeartbeats 1000000

namespace PyClASVi

/-- Lexicographic comparison helper for the three-component termination
measures used below. -/
theorem lexNat3 {a a' b b' c c' : Nat}
    (h : a' < a ∨ (a' = a ∧ (b' < b ∨ (b' = b ∧ c' < c)))) :
    Prod.Lex (· < ·) (Prod.Lex (· < ·) (· < ·)) (a', b', c') (a, b, c) := by
  rcases h with h | ⟨rfl, h | ⟨rfl, h⟩⟩
  · exact Prod.Lex.left _ _ h
  · exact Prod.Lex.right _ (Prod.Lex.left _ _ h)
  · exact Prod.Lex.right _ (Prod.Lex.right _ h)

/-! ## The AST node index (`ASTOutputFrame`)

`ASTOutputFrame` keeps `mapIIDtoCursor` (Treeview iid → Cursor) and
`mapCursorToIID` (Cursor identity → iid, or list of iids when the same cursor
occurs at several tree positions), plus traversal statistics
(`set_translationunit` / `_insert_children`, pyclasvi.py lines 576-626).
-/

/-- The identity-relevant data of a `clang.cindex.Cursor`: `HashableObj` keys
cursors by `obj.hash` / `__eq__`, and `search` reads `kind.name` and
`spelling`.  Cursor equality is structural equality of this record. -/
structure CursorV where
  hash : Nat
  kindName : String
  spelling : String
deriving DecidableEq, Repr

/-- The AST handed over by the clang collaborator: a cursor and its ordered
children (`cursor.get_children()`).  Child links are a finite tree; the same
`CursorV` value may occur at several positions (a "double"). -/
inductive CTree where
  | node (cur : CursorV) (children : List CTree)

mutual
/-- Number of positions contributed by one subtree (the node and its
descendants). -/
def sizeC : CTree → Nat
  | .node _ cs => 1 + sizeL cs
/-- Number of positions contributed by a forest. -/
def sizeL : List CTree → Nat
  | [] => 0
  | c :: cs => sizeC c + sizeL cs
end

mutual
/-- Pre-order list of the cursors of a subtree (the traversal order of
`_insert_children`). -/
def preC : CTree → List CursorV
  | .node c cs => c :: preL cs
/-- Pre-order list of the cursors of a forest. -/
def preL : List CTree → List CursorV
  | [] => []
  | c :: cs => preC c ++ preL cs
end


/-! ## Tk item ids and Python string comparison

`astView.insert(...)` is called without an explicit `iid`, so Tk generates
the item id: an uppercase-hex serial formatted `I%03X` (`I001`, `I002`, ...,
`IFFF`, `I1000`, ...), the serial counting up from 1 per insertion.
`result.sort()` in `search` sorts these id strings lexicographically by
code point (Python `str` comparison). -/

/-- One uppercase hexadecimal digit (`%X` formatting). -/
def hexChar : Nat → Char
  | 0 => '0' | 1 => '1' | 2 => '2' | 3 => '3' | 4 => '4'
  | 5 => '5' | 6 => '6' | 7 => '7' | 8 => '8' | 9 => '9'
  | 10 => 'A' | 11 => 'B' | 12 => 'C' | 13 => 'D' | 14 => 'E'
  | 15 => 'F' | _ => '?'

/-- Big-endian hexadecimal digits of `n` (empty for 0); the first argument is
fuel, always called with fuel `>=` the digit count. -/
def hexDigitsAux : Nat → Nat → List Char
  | 0, _ => []
  | _ + 1, 0 => []
  | fuel + 1, n + 1 => hexDigitsAux fuel ((n + 1) / 16) ++ [hexChar ((n + 1) % 16)]

/-- Big-endian hexadecimal digits of `n`. -/
def hexDigits (n : Nat) : List Char := hexDigitsAux n n

/-- Zero-pad to a minimum width of 3 (the `03` in `I%03X`). -/
def pad3 (l : List Char) : List Char := List.replicate (3 - l.length) '0' ++ l

/-- The Tk-generated Treeview item id for insertion serial `n` (serials start
at 1): `"I" + "%03X" % n`. -/
def tkIID (n : Nat) : String := ⟨'I' :: pad3 (hexDigits n)⟩

/-- Python `str.__lt__`: lexicographic comparison by code point. -/
def pyStrLt : List Char → List Char → Bool
  | [], [] => false
  | [], _ :: _ => true
  | _ :: _, [] => false
  | a :: as, b :: bs =>
      if a.toNat < b.toNat then true
      else if b.toNat < a.toNat then false
      else pyStrLt as bs

/-- The order `result.sort()` sorts by: `a` before-or-equal `b` iff not
`b < a` in Python string comparison. -/
def pyLe (a b : String) : Prop := pyStrLt b.data a.data = false

instance : DecidableRel pyLe := fun _ _ => instDecidableEqBool _ _

theorem pyStrLt_asymm : ∀ x y : List Char, pyStrLt x y = true → pyStrLt y x = false := by
  intro x
  induction x with
  | nil =>
    intro y h
    cases y with
    | nil => simp [pyStrLt] at h
    | cons b bs => simp [pyStrLt]
  | cons a as ih =>
    intro y h
    cases y with
    | nil => simp [pyStrLt] at h
    | cons b bs =>
      simp only [pyStrLt] at h ⊢
      by_cases h1 : a.toNat < b.toNat
      · rw [if_neg (by omega), if_pos h1]
      · rw [if_neg h1] at h
        by_cases h2 : b.toNat < a.toNat
        · rw [if_pos h2] at h
          exact absurd h (by simp)
        · rw [if_neg h2] at h
          rw [if_neg h2, if_neg h1]
          exact ih bs h

theorem pyStrLt_le_trans : ∀ (x y z : List Char), pyStrLt y x = false →
    pyStrLt z y = false → pyStrLt z x = false := by
  intro x
  induction x with
  | nil =>
    intro y z _ _
    cases z with
    | nil => rfl
    | cons c cs => rfl
  | cons a as ih =>
    intro y z h1 h2
    cases y with
    | nil => simp [pyStrLt] at h1
    | cons b bs =>
      cases z with
      | nil => simp [pyStrLt] at h2
      | cons c cs =>
        simp only [pyStrLt] at h1 h2 ⊢
        by_cases hba : b.toNat < a.toNat
        · rw [if_pos hba] at h1
          exact absurd h1 (by simp)
        · rw [if_neg hba] at h1
          by_cases hcb : c.toNat < b.toNat
          · rw [if_pos hcb] at h2
            exact absurd h2 (by simp)
          · rw [if_neg hcb] at h2
            by_cases hca : c.toNat < a.toNat
            · exfalso
              by_cases hab : a.toNat < b.toNat
              · omega
              · omega
            · rw [if_neg hca]
              by_cases hac : a.toNat < c.toNat
              · rw [if_pos hac]
              · rw [if_neg hac]
                rw [if_neg (by omega)] at h1
                rw [if_neg (by omega)] at h2
                exact ih bs cs h1 h2

instance : IsTotal String pyLe :=
  ⟨by
    intro a b
    by_cases h : pyStrLt b.data a.data = false
    · exact Or.inl h
    · refine Or.inr ?_
      have ht : pyStrLt b.data a.data = true := by
        cases hv : pyStrLt b.data a.data
        · exact absurd hv h
        · rfl
      exact pyStrLt_asymm _ _ ht⟩

instance : IsTrans String pyLe :=
  ⟨fun a b c h1 h2 => pyStrLt_le_trans a.data b.data c.data h1 h2⟩

/-- The state of `ASTOutputFrame` that `set_translationunit` builds:
the two maps and the statistics counters.  `mapCursorToIID` values are
`str`-or-`list` in Python; a singleton list models the `str` case (the code
converts `str` to a one-element list before ever appending). -/
structure AOF where
  cntCursors : Nat
  cntDouble : Nat
  cntMaxDoubles : Nat
  cntMaxChildren : Nat
  cntMaxDeep : Nat
  mapIIDtoCursor : List (String × CursorV)
  mapCursorToIID : List (CursorV × List String)
  nextIID : Nat
deriving DecidableEq, Repr

/-- Model of `hCursor in self.mapCursorToIID` (Python dict membership). -/
def dictContains (m : List (CursorV × List String)) (k : CursorV) : Bool :=
  m.any (fun e => e.1 == k)

/-- Model of `self.mapCursorToIID[hCursor]` (Python dict lookup; `[]` for a missing
key never happens in the guarded uses below). -/
def dictGet (m : List (CursorV × List String)) (k : CursorV) : List String :=
  match m.find? (fun e => e.1 == k) with
  | some e => e.2
  | none => []

/-- Appending one iid to the entry of an existing key (the
`data.append(newIID)` branch); dict update keeps insertion order. -/
def dictAppend (m : List (CursorV × List String)) (k : CursorV) (i : String) :
    List (CursorV × List String) :=
  m.map (fun e => if e.1 == k then (e.1, e.2 ++ [i]) else e)

/-- The per-child bookkeeping of `_insert_children` (lines 580-596): allocate
the next iid for `c`, record it in `mapIIDtoCursor`, and either extend the
`mapCursorToIID` entry (counting a double and updating `cntMaxDoubles`) or
create a fresh singleton entry. -/
def allocAndMap (c : CursorV) (s : AOF) : AOF :=
  let newIID := tkIID s.nextIID
  let s₁ := { s with
    mapIIDtoCursor := s.mapIIDtoCursor ++ [(newIID, c)]
    nextIID := s.nextIID + 1 }
  if dictContains s₁.mapCursorToIID c then
    let data := dictGet s₁.mapCursorToIID c ++ [newIID]
    { s₁ with
      cntDouble := s₁.cntDouble + 1
      mapCursorToIID := dictAppend s₁.mapCursorToIID c newIID
      cntMaxDoubles := if data.length > s₁.cntMaxDoubles then data.length
        else s₁.cntMaxDoubles }
  else
    { s₁ with mapCursorToIID := s₁.mapCursorToIID ++ [(c, [newIID])] }

mutual
/-- Model of `ASTOutputFrame._insert_children(cursor, iid, deep)` (lines 576-604):
insert all children of `c`, then update `cntMaxChildren` / `cntMaxDeep` when
the node has children. -/
def insert_children (c : CTree) (deep : Nat) (s : AOF) : AOF :=
  match c with
  | .node _ cs =>
    let (s', cntChildren) := insLoop cs deep s
    if cntChildren > 0 then
      { s' with
        cntMaxChildren := if cntChildren > s'.cntMaxChildren then cntChildren
          else s'.cntMaxChildren
        cntMaxDeep := if deep > s'.cntMaxDeep then deep else s'.cntMaxDeep }
    else s'
/-- The `for childCursor in cursor.get_children()` loop body; returns the
updated state and `cntChildren`. -/
def insLoop (cs : List CTree) (deep : Nat) (s : AOF) : AOF × Nat :=
  match cs with
  | [] => (s, 0)
  | c :: rest =>
    match c with
    | .node cur _ =>
      let s₁ := allocAndMap cur s
      let s₂ := insert_children c (deep + 1) s₁
      let s₃ := { s₂ with cntCursors := s₂.cntCursors + 1 }
      let (s₄, n) := insLoop rest deep s₃
      (s₄, n + 1)
end

/-- Model of `ASTOutputFrame.set_translationunit(tu)` (lines 606-626): reset counters
and maps, insert the root cursor, then its descendants.  (The two `print`
statements reporting the statistics are side effects on stdout.) -/
def set_translationunit (t : CTree) : AOF :=
  match t with
  | .node root _ =>
    let s₀ : AOF :=
      { cntCursors := 1, cntDouble := 0, cntMaxDoubles := 0, cntMaxChildren := 0
        cntMaxDeep := 0
        mapIIDtoCursor := [(tkIID 1, root)]
        mapCursorToIID := [(root, [tkIID 1])]
        nextIID := 2 }
    insert_children t 1 s₀

/-- The keyword arguments of `ASTOutputFrame.search` (field names as in the
source, including the `use_RexEx` spelling). -/
structure SearchArgs where
  use_CursorKind : Bool
  CursorKind : String
  spelling : String
  caseInsensitive : Bool
  use_RexEx : Bool

/-- The Python `re` module is external; a compile function
`compile pattern ignoreCase` models `re.compile(spelling, reFlags)`:
`none` means `re.compile` raised (an invalid pattern), `some m` is the
compiled object, where `m text` models the truthiness of `reObj.match(text)`. -/
abbrev ReCompile := String → Bool → Option (String → Bool)

/-- The per-cursor match test of the `for iid in self.mapIIDtoCursor` loop in
`search` (lines 648-663), with `spelling` already lowered in the
case-insensitive non-regex mode (the code lowers it once, before the loop). -/
def cursorFound (a : SearchArgs) (reObj : Option (String → Bool))
    (spelling : String) (cur : CursorV) : Bool :=
  let found := if a.use_CursorKind then a.CursorKind == cur.kindName else true
  if found then
    if a.use_RexEx then
      match reObj with
      | some m => m cur.spelling
      | none => false
    else if a.caseInsensitive then spelling == cur.spelling.toLower
    else spelling == cur.spelling
  else false

/-- Model of `ASTOutputFrame.search(**kwargs)` (lines 629-667).  The first component
records whether the `tkMessageBox.showerror` dialog was shown (the invalid
regex case, which returns the still-empty `result` list).  The loop appends
matching iids in dict (= insertion) order; `result.sort()` then sorts them. -/
def ASTOutputFrame.search (compile : ReCompile) (mapIIDtoCursor : List (String × CursorV))
    (a : SearchArgs) : Bool × List String :=
  if a.use_RexEx then
    match compile a.spelling a.caseInsensitive with
    | none => (true, [])
    | some reObj =>
      let result := (mapIIDtoCursor.filter
        (fun p => cursorFound a (some reObj) a.spelling p.2)).map (fun p => p.1)
      (false, result.insertionSort pyLe)
  else
    let spelling := if a.caseInsensitive then a.spelling.toLower else a.spelling
    let result := (mapIIDtoCursor.filter
      (fun p => cursorFound a none spelling p.2)).map (fun p => p.1)
    (false, result.insertionSort pyLe)


/-! ### Facts about the index build -/

/-- The (insertion-ordered) key list of `mapCursorToIID`. -/
def keysOf (s : AOF) : List CursorV := s.mapCursorToIID.map Prod.fst

def CTree.children : CTree → List CTree
  | .node _ cs => cs

theorem dictContains_iff (m : List (CursorV × List String)) (k : CursorV) :
    dictContains m k = true ↔ k ∈ m.map Prod.fst := by
  simp [dictContains, List.any_eq_true]

theorem dictAppend_keys (m : List (CursorV × List String)) (k : CursorV) (i : String) :
    (dictAppend m k i).map Prod.fst = m.map Prod.fst := by
  simp only [dictAppend, List.map_map]
  apply List.map_congr_left
  intro e _
  by_cases h : e.1 = k <;> simp [h]

theorem allocAndMap_fields (c : CursorV) (s : AOF) :
    (allocAndMap c s).mapIIDtoCursor = s.mapIIDtoCursor ++ [(tkIID s.nextIID, c)]
    ∧ (allocAndMap c s).nextIID = s.nextIID + 1
    ∧ (allocAndMap c s).cntCursors = s.cntCursors
    ∧ (allocAndMap c s).cntDouble + (keysOf (allocAndMap c s)).length
        = s.cntDouble + (keysOf s).length + 1
    ∧ (∀ x, x ∈ keysOf (allocAndMap c s) ↔ x ∈ keysOf s ∨ x = c)
    ∧ ((keysOf s).Nodup → (keysOf (allocAndMap c s)).Nodup) := by
  by_cases h : dictContains s.mapCursorToIID c
  · have hmem : c ∈ keysOf s := (dictContains_iff _ _).mp h
    refine ⟨by simp [allocAndMap, h], by simp [allocAndMap, h],
      by simp [allocAndMap, h], ?_, ?_, ?_⟩
    · simp [allocAndMap, h, keysOf, dictAppend_keys]; omega
    · intro x
      simp only [allocAndMap, h, if_true, keysOf, dictAppend_keys]
      constructor
      · exact fun hx => Or.inl hx
      · rintro (hx | rfl)
        · exact hx
        · exact hmem
    · intro hnd
      simpa [allocAndMap, h, keysOf, dictAppend_keys] using hnd
  · have hmem : c ∉ keysOf s := fun hc => h ((dictContains_iff _ _).mpr hc)
    refine ⟨by simp [allocAndMap, h], by simp [allocAndMap, h],
      by simp [allocAndMap, h], ?_, ?_, ?_⟩
    · simp [allocAndMap, h, keysOf]; omega
    · intro x
      simp [allocAndMap, h, keysOf]
    · intro hnd
      have h2 : (keysOf s ++ [c]).Nodup := by
        rw [List.nodup_append]
        refine ⟨hnd, List.nodup_singleton c, ?_⟩
        intro a ha hb
        rw [List.mem_singleton] at hb
        subst hb
        exact hmem ha
      simpa [allocAndMap, h, keysOf] using h2

theorem zip_range'_append {α β : Type} (f : Nat → β) (s : Nat) (l₁ l₂ : List α) :
    ((List.range' s (l₁.length + l₂.length)).map f).zip (l₁ ++ l₂)
      = ((List.range' s l₁.length).map f).zip l₁
        ++ ((List.range' (s + l₁.length) l₂.length).map f).zip l₂ := by
  have hr : List.range' s (l₁.length + l₂.length)
      = List.range' s l₁.length ++ List.range' (s + l₁.length) l₂.length := by
    have := List.range'_append s l₁.length l₂.length 1
    simpa [Nat.add_comm] using this.symm
  rw [hr, List.map_append]
  exact List.zip_append (by simp)

/-- The combined invariant transported by `insLoop` over a forest. -/
def LoopSpec (cs : List CTree) (deep : Nat) (s : AOF) : Prop :=
  (insLoop cs deep s).1.cntDouble + (keysOf (insLoop cs deep s).1).length
      = s.cntDouble + (keysOf s).length + sizeL cs
  ∧ (∀ x, x ∈ keysOf (insLoop cs deep s).1 ↔ x ∈ keysOf s ∨ x ∈ preL cs)
  ∧ ((keysOf s).Nodup → (keysOf (insLoop cs deep s).1).Nodup)
  ∧ (insLoop cs deep s).1.mapIIDtoCursor
      = s.mapIIDtoCursor ++ ((List.range' s.nextIID (sizeL cs)).map tkIID).zip (preL cs)
  ∧ (insLoop cs deep s).1.nextIID = s.nextIID + sizeL cs
  ∧ (insLoop cs deep s).1.cntCursors = s.cntCursors + sizeL cs

/-- Same invariant for `insert_children` (which only touches the two max
counters beyond what its `insLoop` call does). -/
def ChildrenSpec (c : CTree) (deep : Nat) (s : AOF) : Prop :=
  (insert_children c deep s).cntDouble + (keysOf (insert_children c deep s)).length
      = s.cntDouble + (keysOf s).length + sizeL c.children
  ∧ (∀ x, x ∈ keysOf (insert_children c deep s) ↔ x ∈ keysOf s ∨ x ∈ preL c.children)
  ∧ ((keysOf s).Nodup → (keysOf (insert_children c deep s)).Nodup)
  ∧ (insert_children c deep s).mapIIDtoCursor
      = s.mapIIDtoCursor
        ++ ((List.range' s.nextIID (sizeL c.children)).map tkIID).zip (preL c.children)
  ∧ (insert_children c deep s).nextIID = s.nextIID + sizeL c.children
  ∧ (insert_children c deep s).cntCursors = s.cntCursors + sizeL c.children

mutual

theorem preC_length (c : CTree) : (preC c).length = sizeC c := by
  cases c with
  | node cur cs => simp [preC, sizeC, preL_length cs]; omega

theorem preL_length (cs : List CTree) : (preL cs).length = sizeL cs := by
  cases cs with
  | nil => simp [preL, sizeL]
  | cons c rest => simp [preL, sizeL, preC_length c, preL_length rest]

end

mutual

theorem insLoop_spec (cs : List CTree) : ∀ deep s, LoopSpec cs deep s := by
  cases cs with
  | nil =>
    intro deep s
    refine ⟨by simp [insLoop, sizeL], fun x => by simp [insLoop, preL],
      fun h => by simpa [insLoop] using h, by simp [insLoop, sizeL, preL],
      by simp [insLoop, sizeL], by simp [insLoop, sizeL]⟩
  | cons c rest =>
    intro deep s
    cases c with
    | node cur cs' =>
      have ha := allocAndMap_fields cur s
      have h1 := insert_children_spec (CTree.node cur cs') (deep + 1) (allocAndMap cur s)
      rcases h1 with ⟨h1a, h1b, h1c, h1d, h1e, h1f⟩
      simp only [CTree.children] at h1a h1b h1c h1d h1e h1f
      set s₂ := insert_children (CTree.node cur cs') (deep + 1) (allocAndMap cur s) with hs₂
      have h2 := insLoop_spec rest deep { s₂ with cntCursors := s₂.cntCursors + 1 }
      rcases h2 with ⟨h2a, h2b, h2c, h2d, h2e, h2f⟩
      have hrun : insLoop (CTree.node cur cs' :: rest) deep s
          = ((insLoop rest deep { s₂ with cntCursors := s₂.cntCursors + 1 }).1,
             (insLoop rest deep { s₂ with cntCursors := s₂.cntCursors + 1 }).2 + 1) := by
        simp [insLoop, hs₂]
      have hkeys₂ : keysOf { s₂ with cntCursors := s₂.cntCursors + 1 } = keysOf s₂ := rfl
      have e1 : ({ s₂ with cntCursors := s₂.cntCursors + 1 } : AOF).mapIIDtoCursor
          = s₂.mapIIDtoCursor := rfl
      have e2 : ({ s₂ with cntCursors := s₂.cntCursors + 1 } : AOF).nextIID
          = s₂.nextIID := rfl
      have e3 : ({ s₂ with cntCursors := s₂.cntCursors + 1 } : AOF).cntCursors
          = s₂.cntCursors + 1 := rfl
      have e4 : ({ s₂ with cntCursors := s₂.cntCursors + 1 } : AOF).cntDouble
          = s₂.cntDouble := rfl
      refine ⟨?_, ?_, ?_, ?_, ?_, ?_⟩
      · rw [hrun]
        simp only [hkeys₂, e4] at h2a
        rw [h2a, h1a, ha.2.2.2.1]
        simp [sizeL, sizeC]; omega
      · intro x
        rw [hrun]
        simp only [hkeys₂] at h2b
        rw [h2b x, h1b x, ha.2.2.2.2.1 x]
        simp only [preL, preC, List.mem_append, List.mem_cons]
        tauto
      · intro hnd
        rw [hrun]
        simp only [hkeys₂] at h2c
        exact h2c (h1c (ha.2.2.2.2.2 hnd))
      · rw [hrun]
        simp only [e1, e2] at h2d
        rw [h2d, h1d, ha.1, h1e, ha.2.1]
        have hsz : sizeL (CTree.node cur cs' :: rest) = (1 + sizeL cs') + sizeL rest := by
          simp [sizeL, sizeC]
        have hpre : preL (CTree.node cur cs' :: rest) = (cur :: preL cs') ++ preL rest := by
          simp [preL, preC]
        rw [hsz, hpre]
        have hl1 : (cur :: preL cs').length = 1 + sizeL cs' := by
          simp [preL_length cs']; omega
        have hl2 : (preL rest).length = sizeL rest := preL_length rest
        rw [← hl1, ← hl2, zip_range'_append tkIID s.nextIID (cur :: preL cs') (preL rest)]
        have hcons : (List.range' s.nextIID (cur :: preL cs').length).map tkIID
            = tkIID s.nextIID
              :: (List.range' (s.nextIID + 1) (preL cs').length).map tkIID := by
          simp [List.range'_succ]
        rw [hcons, List.zip_cons_cons, preL_length cs', hl1]
        simp [List.append_assoc, Nat.add_comm, Nat.add_assoc, Nat.add_left_comm]
      · rw [hrun]
        simp only [e2] at h2e
        rw [h2e, h1e, ha.2.1]
        simp [sizeL, sizeC]; omega
      · rw [hrun]
        simp only [e3] at h2f
        rw [h2f, h1f, ha.2.2.1]
        simp [sizeL, sizeC]; omega

theorem insert_children_spec (c : CTree) : ∀ deep s, ChildrenSpec c deep s := by
  cases c with
  | node cur cs =>
    intro deep s
    have h := insLoop_spec cs deep s
    rcases h with ⟨h1, h2, h3, h4, h5, h6⟩
    have hfields : (insert_children (CTree.node cur cs) deep s).cntDouble
          = (insLoop cs deep s).1.cntDouble
        ∧ (insert_children (CTree.node cur cs) deep s).mapCursorToIID
          = (insLoop cs deep s).1.mapCursorToIID
        ∧ (insert_children (CTree.node cur cs) deep s).mapIIDtoCursor
          = (insLoop cs deep s).1.mapIIDtoCursor
        ∧ (insert_children (CTree.node cur cs) deep s).nextIID
          = (insLoop cs deep s).1.nextIID
        ∧ (insert_children (CTree.node cur cs) deep s).cntCursors
          = (insLoop cs deep s).1.cntCursors := by
      simp only [insert_children]
      by_cases hc : (insLoop cs deep s).2 > 0 <;> simp [hc]
    refine ⟨?_, ?_, ?_, ?_, ?_, ?_⟩
    · simpa [CTree.children, keysOf, hfields.1, hfields.2.1] using h1
    · intro x
      have := h2 x
      simpa [CTree.children, keysOf, hfields.2.1] using this
    · intro hnd
      have := h3 hnd
      simpa [CTree.children, keysOf, hfields.2.1] using this
    · simpa [CTree.children, hfields.2.2.1] using h4
    · simpa [CTree.children, hfields.2.2.2.1] using h5
    · simpa [CTree.children, hfields.2.2.2.2] using h6

end

theorem keysOf_start (root : CursorV) :
    keysOf { cntCursors := 1, cntDouble := 0, cntMaxDoubles := 0, cntMaxChildren := 0
             cntMaxDeep := 0, mapIIDtoCursor := [(tkIID 1, root)]
             mapCursorToIID := [(root, [tkIID 1])], nextIID := 2 } = [root] := rfl

theorem set_translationunit_keys (t : CTree) :
    ((keysOf (set_translationunit t)).Nodup
      ∧ ∀ x, x ∈ keysOf (set_translationunit t) ↔ x ∈ preC t)
    ∧ (set_translationunit t).cntDouble + (keysOf (set_translationunit t)).length = sizeC t
    ∧ (set_translationunit t).cntCursors = sizeC t := by
  cases t with
  | node root cs =>
    have h := insert_children_spec (CTree.node root cs) 1
      { cntCursors := 1, cntDouble := 0, cntMaxDoubles := 0, cntMaxChildren := 0
        cntMaxDeep := 0, mapIIDtoCursor := [(tkIID 1, root)]
        mapCursorToIID := [(root, [tkIID 1])], nextIID := 2 }
    rcases h with ⟨h1, h2, h3, _h4, _h5, h6⟩
    simp only [CTree.children, keysOf_start] at h1 h2 h3 h6
    have hst : set_translationunit (CTree.node root cs)
        = insert_children (CTree.node root cs) 1
          { cntCursors := 1, cntDouble := 0, cntMaxDoubles := 0, cntMaxChildren := 0
            cntMaxDeep := 0, mapIIDtoCursor := [(tkIID 1, root)]
            mapCursorToIID := [(root, [tkIID 1])], nextIID := 2 } := rfl
    rw [hst]
    refine ⟨⟨h3 (List.nodup_singleton root), ?_⟩, ?_, ?_⟩
    · intro x
      rw [h2 x]
      simp [preC]
    · rw [h1]
      simp [sizeC, keysOf_start]
    · rw [h6]
      simp [sizeC]

/-- C2 support: the doubles counter, the key set of `mapCursorToIID`, and
the total position count, in terms of the tree. -/
theorem cntDouble_closed (t : CTree) :
    (set_translationunit t).cntDouble + ((preC t).dedup).length = sizeC t := by
  have h := set_translationunit_keys t
  rcases h with ⟨⟨hnd, hmem⟩, hsum, _⟩
  have hperm : (keysOf (set_translationunit t)).Perm (preC t).dedup := by
    rw [List.perm_ext_iff_of_nodup hnd (List.nodup_dedup _)]
    intro x
    rw [hmem x, List.mem_dedup]
  rw [← hperm.length_eq]
  exact hsum

/-- C2, counterexample: in the tree `root[c1, c1, c1]` the identity `c1` has
three Positions, so there is exactly one identity with more than one
Position, yet the reported doubles statistic is 2 (the code increments
`cntDouble` once per repeated occurrence, lines 586-594). -/
theorem c2_counterexample :
    (set_translationunit (CTree.node ⟨0, "K", "r"⟩
        [CTree.node ⟨1, "K", "a"⟩ [], CTree.node ⟨1, "K", "a"⟩ [],
         CTree.node ⟨1, "K", "a"⟩ []])).cntDouble = 2
    ∧ ((set_translationunit (CTree.node ⟨0, "K", "r"⟩
        [CTree.node ⟨1, "K", "a"⟩ [], CTree.node ⟨1, "K", "a"⟩ [],
         CTree.node ⟨1, "K", "a"⟩ []])).mapCursorToIID.filter
          (fun e => 1 < e.2.length)).length = 1 := by
  constructor <;> decide

/-- C2 (amended): after building the index, the reported doubles statistic
counts repeated occurrences, i.e. `cntDouble` plus the number of distinct
node identities equals the total number of Positions (so an identity with k>1
Positions contributes k-1, not 1); in particular a tree with no repeated
identity reports 0 doubles, and `cntCursors` is the total Position count. -/
theorem c2_doubles_statistic (t : CTree) :
    (set_translationunit t).cntDouble + ((preC t).dedup).length = sizeC t
    ∧ (set_translationunit t).cntCursors = sizeC t
    ∧ ((preC t).Nodup → (set_translationunit t).cntDouble = 0) := by
  refine ⟨cntDouble_closed t, (set_translationunit_keys t).2.2, ?_⟩
  intro hnd
  have h := cntDouble_closed t
  rw [List.dedup_eq_self.mpr hnd] at h
  have hlen := preC_length t
  omega

/-- C2, witness: a concrete no-sharing tree on which the amended statement
evaluates: the doubles statistic is 0. -/
theorem c2_witness :
    (preC (CTree.node ⟨0, "K", "r"⟩ [CTree.node ⟨1, "K", "a"⟩ []])).Nodup
    ∧ (set_translationunit
        (CTree.node ⟨0, "K", "r"⟩ [CTree.node ⟨1, "K", "a"⟩ []])).cntDouble = 0 :=
  ⟨by decide, (c2_doubles_statistic _).2.2 (by decide)⟩

/-! ### C3: search results and Position creation order

`search` returns the matching Tk item ids sorted lexicographically as
strings (`result.sort()`).  Creation order is the allocation order of the
serials `1, 2, 3, ...`; the two orders agree exactly while every id has
three hex digits, i.e. while the index holds at most `0xFFF = 4095`
Positions, and diverge from the 4096th Position on (`"I1000" < "IA00"`
lexicographically although serial `0x1000` is created after `0xA00`). -/

theorem hexDigitsAux_congr : ∀ (n f₁ f₂ : Nat), n ≤ f₁ → n ≤ f₂ →
    hexDigitsAux f₁ n = hexDigitsAux f₂ n := by
  intro n
  induction n using Nat.strong_induction_on with
  | _ n ih =>
    intro f₁ f₂ h₁ h₂
    match n, f₁, f₂ with
    | 0, 0, 0 => rfl
    | 0, 0, _ + 1 => rfl
    | 0, _ + 1, 0 => rfl
    | 0, _ + 1, _ + 1 => rfl
    | m + 1, a + 1, b + 1 =>
      simp only [hexDigitsAux]
      have hd : (m + 1) / 16 < m + 1 := by omega
      rw [ih ((m + 1) / 16) hd a b (by omega) (by omega)]

theorem hexDigits_pos (n : Nat) (h : 0 < n) :
    hexDigits n = hexDigits (n / 16) ++ [hexChar (n % 16)] := by
  match n, h with
  | m + 1, _ =>
    show hexDigitsAux (m + 1) (m + 1) = _
    simp only [hexDigitsAux]
    rw [hexDigitsAux_congr ((m + 1) / 16) m ((m + 1) / 16) (by omega) le_rfl]
    rfl

/-- Ids with serial at most `0xFFF` are exactly three hex digits after
padding. -/
theorem hexDigits3 (n : Nat) (h : n ≤ 4095) :
    pad3 (hexDigits n) = [hexChar (n / 256), hexChar (n / 16 % 16), hexChar (n % 16)] := by
  by_cases h0 : n = 0
  · subst h0
    decide
  by_cases h1 : n < 16
  · rw [hexDigits_pos n (by omega)]
    have e1 : n / 16 = 0 := by omega
    have e2 : n % 16 = n := by omega
    have e3 : n / 256 = 0 := by omega
    have e4 : n / 16 % 16 = 0 := by omega
    rw [e4, e1, e2, e3]
    show pad3 ([] ++ [hexChar n]) = _
    simp [pad3]
    rfl
  by_cases h2 : n < 256
  · rw [hexDigits_pos n (by omega), hexDigits_pos (n / 16) (by omega)]
    have e1 : n / 16 / 16 = 0 := by omega
    have e2 : n / 16 % 16 = n / 16 := by omega
    have e3 : n / 256 = 0 := by omega
    rw [e1, e2, e3]
    show pad3 (([] ++ [hexChar (n / 16)]) ++ [hexChar (n % 16)]) = _
    simp [pad3]
    rfl
  · rw [hexDigits_pos n (by omega), hexDigits_pos (n / 16) (by omega),
      hexDigits_pos (n / 16 / 16) (by omega)]
    have e2 : n / 16 / 16 / 16 = 0 := by omega
    have e3 : n / 16 / 16 % 16 = n / 256 := by omega
    rw [e2, e3]
    show pad3 ((([] ++ [hexChar (n / 256)]) ++ [hexChar (n / 16 % 16)]) ++ [hexChar (n % 16)]) = _
    simp [pad3]

theorem hexChar_lt_iff : ∀ x < 16, ∀ y < 16,
    ((hexChar x).toNat < (hexChar y).toNat ↔ x < y) := by decide

theorem pyStrLt3_false (x₀ x₁ x₂ y₀ y₁ y₂ : Nat)
    (hb : x₀ < 16 ∧ x₁ < 16 ∧ x₂ < 16 ∧ y₀ < 16 ∧ y₁ < 16 ∧ y₂ < 16)
    (hlex : x₀ < y₀ ∨ (x₀ = y₀ ∧ (x₁ < y₁ ∨ (x₁ = y₁ ∧ x₂ ≤ y₂)))) :
    pyStrLt [hexChar y₀, hexChar y₁, hexChar y₂] [hexChar x₀, hexChar x₁, hexChar x₂]
      = false := by
  obtain ⟨b0, b1, b2, b3, b4, b5⟩ := hb
  rcases hlex with h | ⟨rfl, h⟩
  · simp only [pyStrLt]
    rw [if_neg (by rw [hexChar_lt_iff y₀ b3 x₀ b0]; omega),
      if_pos (by rw [hexChar_lt_iff x₀ b0 y₀ b3]; omega)]
  · rcases h with h | ⟨rfl, h⟩
    · simp only [pyStrLt]
      rw [if_neg (by rw [hexChar_lt_iff x₀ b0 x₀ b0]; omega),
        if_neg (by rw [hexChar_lt_iff x₀ b0 x₀ b0]; omega),
        if_neg (by rw [hexChar_lt_iff y₁ b4 x₁ b1]; omega),
        if_pos (by rw [hexChar_lt_iff x₁ b1 y₁ b4]; omega)]
    · simp only [pyStrLt]
      rw [if_neg (by rw [hexChar_lt_iff x₀ b0 x₀ b0]; omega),
        if_neg (by rw [hexChar_lt_iff x₀ b0 x₀ b0]; omega),
        if_neg (by rw [hexChar_lt_iff x₁ b1 x₁ b1]; omega),
        if_neg (by rw [hexChar_lt_iff x₁ b1 x₁ b1]; omega),
        if_neg (by rw [hexChar_lt_iff y₂ b5 x₂ b2]; omega)]
      by_cases hx : x₂ = y₂
      · subst hx
        rw [if_neg (by rw [hexChar_lt_iff x₂ b2 x₂ b2]; omega)]
      · rw [if_pos (by rw [hexChar_lt_iff x₂ b2 y₂ b5]; omega)]

/-- While every serial is at most `0xFFF`, the lexicographic string order on
the Tk ids agrees with the numeric (creation) order of the serials. -/
theorem tkIID_le {a b : Nat} (hab : a ≤ b) (hb : b ≤ 4095) : pyLe (tkIID a) (tkIID b) := by
  show pyStrLt (tkIID b).data (tkIID a).data = false
  show pyStrLt ('I' :: pad3 (hexDigits b)) ('I' :: pad3 (hexDigits a)) = false
  rw [hexDigits3 a (by omega), hexDigits3 b hb]
  simp only [pyStrLt]
  rw [if_neg (by omega), if_neg (by omega)]
  exact pyStrLt3_false (a / 256) (a / 16 % 16) (a % 16) (b / 256) (b / 16 % 16) (b % 16)
    (by omega) (by omega)

/-- The iids allocated by the build are `tkIID 1, tkIID 2, ...` in pre-order
traversal (= Position creation) order. -/
theorem mapIID_fst (t : CTree) :
    (set_translationunit t).mapIIDtoCursor.map Prod.fst
      = (List.range' 1 (sizeC t)).map tkIID := by
  cases t with
  | node root cs =>
    have h := (insert_children_spec (CTree.node root cs) 1
      { cntCursors := 1, cntDouble := 0, cntMaxDoubles := 0, cntMaxChildren := 0
        cntMaxDeep := 0, mapIIDtoCursor := [(tkIID 1, root)]
        mapCursorToIID := [(root, [tkIID 1])], nextIID := 2 }).2.2.2.1
    simp only [CTree.children] at h
    have hst : set_translationunit (CTree.node root cs)
        = insert_children (CTree.node root cs) 1
          { cntCursors := 1, cntDouble := 0, cntMaxDoubles := 0, cntMaxChildren := 0
            cntMaxDeep := 0, mapIIDtoCursor := [(tkIID 1, root)]
            mapCursorToIID := [(root, [tkIID 1])], nextIID := 2 } := rfl
    rw [hst, h]
    rw [List.map_append]
    have hzip : ((((List.range' 2 (sizeL cs)).map tkIID)).zip (preL cs)).map Prod.fst
        = (List.range' 2 (sizeL cs)).map tkIID := by
      apply List.map_fst_zip
      simp [preL_length cs]
    rw [hzip]
    have hn : sizeC (CTree.node root cs) = sizeL cs + 1 := by
      simp [sizeC]; omega
    rw [hn, List.range'_succ]
    rfl

/-- Every entry of the built index holds a cursor of the tree. -/
theorem mapIID_snd (t : CTree) (e : String × CursorV)
    (he : e ∈ (set_translationunit t).mapIIDtoCursor) : e.2 ∈ preC t := by
  cases t with
  | node root cs =>
    have h := (insert_children_spec (CTree.node root cs) 1
      { cntCursors := 1, cntDouble := 0, cntMaxDoubles := 0, cntMaxChildren := 0
        cntMaxDeep := 0, mapIIDtoCursor := [(tkIID 1, root)]
        mapCursorToIID := [(root, [tkIID 1])], nextIID := 2 }).2.2.2.1
    simp only [CTree.children] at h
    have hst : set_translationunit (CTree.node root cs)
        = insert_children (CTree.node root cs) 1
          { cntCursors := 1, cntDouble := 0, cntMaxDoubles := 0, cntMaxChildren := 0
            cntMaxDeep := 0, mapIIDtoCursor := [(tkIID 1, root)]
            mapCursorToIID := [(root, [tkIID 1])], nextIID := 2 } := rfl
    rw [hst, h] at he
    obtain ⟨i, v⟩ := e
    simp only [List.mem_append, List.mem_singleton] at he
    rcases he with he | he
    · simp only [Prod.mk.injEq] at he
      simp [preC, he.2]
    · have hv := (List.of_mem_zip he).2
      simp only [preC, List.mem_cons]
      exact Or.inr hv

/-- The key list of the built index is sorted for `pyLe` as long as the
index holds at most 4095 Positions (all ids three hex digits). -/
theorem keys_pairwise (t : CTree) (hsz : sizeC t ≤ 4095) :
    ((set_translationunit t).mapIIDtoCursor.map Prod.fst).Pairwise pyLe := by
  rw [mapIID_fst, List.pairwise_map]
  have hpw := List.pairwise_lt_range' 1 (sizeC t)
  refine hpw.imp_of_mem ?_
  intro a b ha hb hlt
  have hb2 : b < 1 + sizeC t := (List.mem_range'_1.mp hb).2
  exact tkIID_le (le_of_lt hlt) (by omega)

/-- Sorting the filtered key list is the identity when the full key list is
already sorted (the filtered list is a sublist). -/
theorem sorted_filter_keys (m : List (String × CursorV)) (p : String × CursorV → Bool)
    (hm : (m.map Prod.fst).Pairwise pyLe) :
    ((m.filter p).map Prod.fst).insertionSort pyLe = (m.filter p).map Prod.fst := by
  have hsub : ((m.filter p).map Prod.fst).Sublist (m.map Prod.fst) :=
    (List.filter_sublist m).map _
  have hpw : ((m.filter p).map Prod.fst).Pairwise pyLe :=
    List.Pairwise.sublist hsub hm
  exact List.Sorted.insertionSort_eq hpw

/-- A wide tree with a root and 4096 children; all cursors carry the
spelling matched below, so a search matches every Position. -/
def wideTree : CTree :=
  CTree.node ⟨0, "K", "x"⟩ (List.replicate 4096 (CTree.node ⟨1, "K", "x"⟩ []))

/-- A non-regex exact-spelling search for `"x"`. -/
def wideArgs : SearchArgs :=
  { use_CursorKind := false, CursorKind := "", spelling := "x",
    caseInsensitive := false, use_RexEx := false }

theorem sizeL_replicate (n : Nat) (c : CursorV) :
    sizeL (List.replicate n (CTree.node c [])) = n := by
  induction n with
  | zero => rfl
  | succ k ih =>
    rw [List.replicate_succ]
    simp [sizeL, sizeC, ih]
    omega

theorem preL_replicate (n : Nat) (c : CursorV) :
    preL (List.replicate n (CTree.node c [])) = List.replicate n c := by
  induction n with
  | zero => rfl
  | succ k ih =>
    rw [List.replicate_succ, List.replicate_succ]
    simp [preL, preC, ih]

theorem sizeC_wideTree : sizeC wideTree = 4097 := by
  show sizeC (CTree.node _ _) = 4097
  rw [show sizeC (CTree.node ⟨0, "K", "x"⟩
      (List.replicate 4096 (CTree.node ⟨1, "K", "x"⟩ [])))
    = 1 + sizeL (List.replicate 4096 (CTree.node ⟨1, "K", "x"⟩ [])) from rfl]
  rw [sizeL_replicate]

/-- On `wideTree`, the `wideArgs` search matches every Position. -/
theorem wide_filter_all :
    (set_translationunit wideTree).mapIIDtoCursor.filter
        (fun p => cursorFound wideArgs none
          (if wideArgs.caseInsensitive then wideArgs.spelling.toLower
           else wideArgs.spelling) p.2)
      = (set_translationunit wideTree).mapIIDtoCursor := by
  apply List.filter_eq_self.mpr
  intro e he
  have hv : e.2 ∈ preC wideTree := mapIID_snd wideTree e he
  have hx : e.2.spelling = "x" := by
    rw [show preC wideTree = (⟨0, "K", "x"⟩ : CursorV)
        :: preL (List.replicate 4096 (CTree.node ⟨1, "K", "x"⟩ [])) from rfl,
      preL_replicate] at hv
    rcases List.mem_cons.mp hv with heq | hv
    · rw [heq]
    · rw [List.eq_of_mem_replicate hv]
  simp [cursorFound, wideArgs, hx]

/-- Whatever the predicate and index, the list `search` returns is sorted
for `pyLe` (it is `result.sort()`'s output, or `[]` on a bad regex). -/
theorem search_output_sorted (compile : ReCompile) (m : List (String × CursorV))
    (a : SearchArgs) :
    ((ASTOutputFrame.search compile m a).2).Sorted pyLe := by
  unfold ASTOutputFrame.search
  by_cases hre : a.use_RexEx
  · simp only [hre, if_true]
    cases hc : compile a.spelling a.caseInsensitive with
    | none => exact List.sorted_nil
    | some reObj => exact List.sorted_insertionSort pyLe _
  · simp only [hre, if_false]
    exact List.sorted_insertionSort pyLe _

/-- C3, counterexample: on an index of 4097 Positions the exact-spelling
search matches every Position (first conjunct), yet the returned list is NOT
the matched Positions in creation order (second conjunct): `result.sort()`
sorts Tk id strings lexicographically, and the 4096th id `"I1000"` sorts
before the 4095th id `"IFFF"` although it was created later. -/
theorem c3_counterexample :
    ((set_translationunit wideTree).mapIIDtoCursor.filter
        (fun p => cursorFound wideArgs none
          (if wideArgs.caseInsensitive then wideArgs.spelling.toLower
           else wideArgs.spelling) p.2)).map Prod.fst
      = (set_translationunit wideTree).mapIIDtoCursor.map Prod.fst
    ∧ (ASTOutputFrame.search (fun _ _ => none)
        (set_translationunit wideTree).mapIIDtoCursor wideArgs).2
      ≠ (set_translationunit wideTree).mapIIDtoCursor.map Prod.fst := by
  constructor
  · rw [wide_filter_all]
  · intro heq
    have hsorted : ((set_translationunit wideTree).mapIIDtoCursor.map
        Prod.fst).Sorted pyLe := by
      rw [← heq]
      exact search_output_sorted (fun _ _ => none) _ wideArgs
    have hk : (set_translationunit wideTree).mapIIDtoCursor.map Prod.fst
        = (List.range' 1 4097).map tkIID := by
      have h := mapIID_fst wideTree
      rw [sizeC_wideTree] at h
      exact h
    rw [hk] at hsorted
    have hsub2 : List.Sublist [tkIID 4095, tkIID 4096]
        ((List.range' 1 4097).map tkIID) := by
      have h1 : List.Sublist [4095, 4096] (List.range' 4095 3) := by
        rw [show List.range' 4095 3 = [4095, 4096, 4097] from rfl]
        exact List.Sublist.cons₂ _ (List.Sublist.cons₂ _ (List.nil_sublist _))
      have h2 : List.range' 1 4094 ++ List.range' 4095 3 = List.range' 1 4097 := by
        have h3 := List.range'_append 1 4094 3 1
        simpa using h3
      have h4 : List.Sublist [4095, 4096] (List.range' 1 4097) := by
        rw [← h2]
        exact h1.trans (List.sublist_append_right _ _)
      exact h4.map tkIID
    have hpw := List.Pairwise.sublist hsub2 hsorted
    have hle : pyLe (tkIID 4095) (tkIID 4096) :=
      (List.pairwise_cons.mp hpw).1 _ (by simp)
    exact absurd hle (by decide)

/-- C3 (amended): for every index built from at most 4095 Positions (so
every Tk item id has exactly three hex digits) and every search predicate -
exact or case-insensitive spelling match, kind filter, or a successfully
compiled regex - the list returned by `search` is exactly the matching
Positions in Position creation (pre-order allocation) order: the
lexicographic `result.sort()` is the identity on such id lists, making the
order stable and deterministic regardless of the predicate.  Beyond 4095
Positions the string sort diverges from creation order. -/
theorem c3_search_creation_order (t : CTree) (compile : ReCompile) (a : SearchArgs)
    (hsz : sizeC t ≤ 4095) :
    (a.use_RexEx = false →
      (ASTOutputFrame.search compile (set_translationunit t).mapIIDtoCursor a).2
        = ((set_translationunit t).mapIIDtoCursor.filter
            (fun p => cursorFound a none
              (if a.caseInsensitive then a.spelling.toLower else a.spelling)
              p.2)).map Prod.fst)
    ∧ ∀ reObj, a.use_RexEx = true → compile a.spelling a.caseInsensitive = some reObj →
      (ASTOutputFrame.search compile (set_translationunit t).mapIIDtoCursor a).2
        = ((set_translationunit t).mapIIDtoCursor.filter
            (fun p => cursorFound a (some reObj) a.spelling p.2)).map Prod.fst := by
  have hm : ((set_translationunit t).mapIIDtoCursor.map Prod.fst).Pairwise pyLe :=
    keys_pairwise t hsz
  constructor
  · intro hre
    unfold ASTOutputFrame.search
    rw [hre]
    rw [if_neg (by simp)]
    exact sorted_filter_keys _ _ hm
  · intro reObj hre hc
    unfold ASTOutputFrame.search
    rw [hre]
    rw [if_pos rfl]
    rw [hc]
    exact sorted_filter_keys _ _ hm

/-- A two-Position tree and an exact-spelling search for the witness. -/
def smallTree : CTree :=
  CTree.node ⟨0, "K", "r"⟩ [CTree.node ⟨1, "K", "a"⟩ []]

/-- The witness search arguments: non-regex exact match on `"a"`. -/
def smallArgs : SearchArgs :=
  { use_CursorKind := false, CursorKind := "", spelling := "a",
    caseInsensitive := false, use_RexEx := false }

/-- C3, witness: the amended statement at a concrete two-Position index. -/
theorem c3_witness :
    sizeC smallTree ≤ 4095
    ∧ (ASTOutputFrame.search (fun _ _ => none)
        (set_translationunit smallTree).mapIIDtoCursor smallArgs).2
      = ((set_translationunit smallTree).mapIIDtoCursor.filter
          (fun p => cursorFound smallArgs none
            (if smallArgs.caseInsensitive then smallArgs.spelling.toLower
             else smallArgs.spelling) p.2)).map Prod.fst :=
  ⟨by decide,
    (c3_search_creation_order smallTree (fun _ _ => none) smallArgs (by decide)).1 rfl⟩

/-! ## The navigation controller (`OutputFrame`, pyclasvi.py lines 1459-1753)

`OutputFrame` owns the current selection (`curIID`), the bounded history, the
search-result cycling state and the marker slots.  The model keeps exactly
the plain-attribute state plus `Bool` fields for the two search cycle
buttons (the claims reference their disabling); the doubles buttons, labels
and marker slots only mirror widget state no claim mentions.  Treeview
focus/selection is represented by the `iid` argument of the selection
handler: `set_current_iid(iid)` fires `<<TreeviewSelect>>`, i.e. calls
`_on_cursor_selection` with that iid focused. -/

inductive PyErr where
  | zeroDivisionError
deriving DecidableEq, Repr

/-- Python `a % b`: raises `ZeroDivisionError` when `b = 0`; for `b > 0` the
result is in `[0, b)` (Lean's `Int.emod` agrees with Python for positive
divisors). -/
def pymod (a b : Int) : Except PyErr Int :=
  if b = 0 then .error .zeroDivisionError else .ok (a % b)

/-- Python `l[i]`: a negative index counts from the end.  All reads below are
guarded to be in range, so the out-of-range case returns the default rather
than modelling `IndexError`. -/
def pyindex {α : Type} (dflt : α) (l : List α) (i : Int) : α :=
  let j := if i < 0 then i + l.length else i
  l.getD j.toNat dflt

/-- Model of `OutputFrame._MAX_HISTORY`. -/
def OutputFrame._MAX_HISTORY : Nat := 25

/-- The modelled mutable state of `OutputFrame` (`curIID` is `''` initially,
modelled as `none`). -/
structure OFState where
  curIID : Option String
  history : List String
  historyPos : Int
  searchResult : List String
  searchPos : Int
  searchFwdEnabled : Bool
  searchBwdEnabled : Bool
deriving DecidableEq, Repr

/-- The state after `__init__` + `clear()` (history, doubles, search and
markers cleared; `searchPos` keeps its `__init__` value `-1`, `clear_search`
does not reset it). -/
def OutputFrame.initState : OFState :=
  { curIID := none, history := [], historyPos := -1, searchResult := [],
    searchPos := -1, searchFwdEnabled := false, searchBwdEnabled := false }

/-- Model of `OutputFrame._update_search` (lines 1689-1708): with a non-empty result,
synchronise `searchPos` with the current selection when it is one of the
results, and enable the two cycle buttons; with an empty result, disable
both (the `serachLabel` text/state only mirrors this).  -/
def OutputFrame.update_search (s : OFState) : OFState :=
  let cnt := s.searchResult.length
  if 0 < cnt then
    let serchIID := pyindex "" s.searchResult s.searchPos
    let s' :=
      if s.curIID ≠ some serchIID then
        if (match s.curIID with
            | some k => s.searchResult.contains k
            | none => false) then
          { s with searchPos := (s.searchResult.indexOf (s.curIID.getD "") : Int) }
        else s
      else s
    { s' with searchFwdEnabled := true, searchBwdEnabled := true }
  else
    { s with searchFwdEnabled := false, searchBwdEnabled := false }

/-- Model of `OutputFrame._add_history(iid)` (lines 1586-1600): truncate the future
after the cursor, evict the oldest entry when the bound is reached (without
moving the cursor), otherwise advance the cursor; then append. -/
def OutputFrame._add_history (iid : String) (s : OFState) : OFState :=
  let s₁ :=
    if s.historyPos < (s.history.length : Int) then
      { s with history := s.history.take (s.historyPos + 1).toNat }
    else s
  let s₂ :=
    if OutputFrame._MAX_HISTORY ≤ s₁.history.length then
      { s₁ with history := s₁.history.drop 1 }
    else { s₁ with historyPos := s₁.historyPos + 1 }
  { s₂ with history := s₂.history ++ [iid] }

/-- Model of `OutputFrame._on_cursor_selection` (lines 1563-1571) when the Treeview
focus is `iid`: push history and take over the selection unless the iid is
already current (the history-walk guard), then refresh the doubles widgets
(unmodelled) and the search sync. -/
def OutputFrame.on_cursor_selection (iid : String) (s : OFState) : OFState :=
  let s₁ :=
    if some iid ≠ s.curIID then
      { OutputFrame._add_history iid s with curIID := some iid }
    else s
  OutputFrame.update_search s₁

/-- Model of `OutputFrame._update_history` (lines 1614-1619): jump the selection to
`history[historyPos]`.  Setting `curIID` first makes the nested
`_on_cursor_selection` (fired by `set_current_iid`) skip the history push;
that nested call still runs `_update_search`. -/
def OutputFrame._update_history (s : OFState) : OFState :=
  let newIID := pyindex "" s.history s.historyPos
  OutputFrame.update_search { s with curIID := some newIID }

/-- Model of `OutputFrame.go_history_backward` (lines 1602-1606)
(`_update_history_buttons` only configures widgets). -/
def OutputFrame.go_history_backward (s : OFState) : OFState :=
  if 0 < s.historyPos then
    OutputFrame._update_history { s with historyPos := s.historyPos - 1 }
  else s

/-- Model of `OutputFrame.go_history_forward` (lines 1608-1612). -/
def OutputFrame.go_history_forward (s : OFState) : OFState :=
  if s.historyPos + 1 < (s.history.length : Int) then
    OutputFrame._update_history { s with historyPos := s.historyPos + 1 }
  else s

/-- Model of `OutputFrame._on_search` (lines 1670-1678), for a confirmed search
dialog delivering `a`: replace `searchResult` with whatever
`ASTOutputFrame.search` returned (also when a bad regex made it return `[]`
after showing the error box), reset `searchPos`, refresh the widgets, and
select the first result when there is one.  The returned `Bool` is the
"error dialog was shown" flag of the search. -/
def OutputFrame._on_search (compile : ReCompile) (index : List (String × CursorV))
    (a : SearchArgs) (s : OFState) : Bool × OFState :=
  let res := ASTOutputFrame.search compile index a
  let s₁ := { s with searchResult := res.2, searchPos := 0 }
  let s₂ := OutputFrame.update_search s₁
  if 0 < s₂.searchResult.length then
    (res.1, OutputFrame.on_cursor_selection (pyindex "" s₂.searchResult s₂.searchPos) s₂)
  else (res.1, s₂)

/-- Model of `OutputFrame.go_search_forward` (lines 1684-1686): the modulo is
evaluated before anything is assigned, so `searchResult = []` raises
`ZeroDivisionError` with the state unchanged. -/
def OutputFrame.go_search_forward (s : OFState) : Except PyErr OFState := do
  let np ← pymod (s.searchPos + 1) (s.searchResult.length : Int)
  let s₁ := { s with searchPos := np }
  .ok (OutputFrame.on_cursor_selection (pyindex "" s₁.searchResult np) s₁)

/-- Model of `OutputFrame.go_search_backward` (lines 1680-1682). -/
def OutputFrame.go_search_backward (s : OFState) : Except PyErr OFState := do
  let np ← pymod (s.searchPos - 1) (s.searchResult.length : Int)
  let s₁ := { s with searchPos := np }
  .ok (OutputFrame.on_cursor_selection (pyindex "" s₁.searchResult np) s₁)

/-! ### C5: cycling search with an empty result list -/

/-- C5, counterexample: in a state whose search result list is empty (here
the freshly cleared state), invoking the cycle-search handler is not a no-op:
the `(searchPos + 1) % len(searchResult)` expression raises
`ZeroDivisionError` (and likewise backward). -/
theorem c5_counterexample :
    OutputFrame.initState.searchResult = []
    ∧ OutputFrame.go_search_forward OutputFrame.initState
        = .error .zeroDivisionError
    ∧ OutputFrame.go_search_backward OutputFrame.initState
        = .error .zeroDivisionError := by
  refine ⟨rfl, ?_, ?_⟩ <;> rfl

/-- C5 (amended): for every state with an empty search result list, invoking
either cycle-search handler raises `ZeroDivisionError` (leaving the state
unchanged) instead of being a silent no-op; the UI makes this unreachable by
having `_update_search` disable both cycle buttons whenever the result list
is empty. -/
theorem c5_empty_search_cycle (s : OFState) (h : s.searchResult = []) :
    OutputFrame.go_search_forward s = .error .zeroDivisionError
    ∧ OutputFrame.go_search_backward s = .error .zeroDivisionError
    ∧ (OutputFrame.update_search s).searchFwdEnabled = false
    ∧ (OutputFrame.update_search s).searchBwdEnabled = false := by
  refine ⟨?_, ?_, ?_, ?_⟩
  · simp only [OutputFrame.go_search_forward, pymod, h]
    rfl
  · simp only [OutputFrame.go_search_backward, pymod, h]
    rfl
  · simp [OutputFrame.update_search, h]
  · simp [OutputFrame.update_search, h]

/-- C5, witness: the amended statement at the cleared state. -/
theorem c5_witness :
    OutputFrame.go_search_forward OutputFrame.initState = .error .zeroDivisionError
    ∧ OutputFrame.go_search_backward OutputFrame.initState = .error .zeroDivisionError
    ∧ (OutputFrame.update_search OutputFrame.initState).searchFwdEnabled = false
    ∧ (OutputFrame.update_search OutputFrame.initState).searchBwdEnabled = false :=
  c5_empty_search_cycle OutputFrame.initState rfl

/-! ### C1: searching with an invalid regular expression -/

/-- C1, counterexample: a session whose prior search result is the non-empty
`["I005"]`; running a regex search whose pattern fails to compile replaces the
prior result list with the empty list (the error itself goes to an error
dialog, `search` lines 640-644, and `_on_search` line 1674 assigns the
returned `[]`). -/
theorem c1_counterexample :
    ((OutputFrame._on_search (fun _ _ => none) []
        { use_CursorKind := false, CursorKind := "", spelling := "(",
          caseInsensitive := false, use_RexEx := true }
        { curIID := none, history := [], historyPos := -1, searchResult := ["I005"],
          searchPos := 0, searchFwdEnabled := true,
          searchBwdEnabled := true }).2).searchResult = []
    ∧ ((OutputFrame._on_search (fun _ _ => none) []
        { use_CursorKind := false, CursorKind := "", spelling := "(",
          caseInsensitive := false, use_RexEx := true }
        { curIID := none, history := [], historyPos := -1, searchResult := ["I005"],
          searchPos := 0, searchFwdEnabled := true,
          searchBwdEnabled := true }).1) = true
    ∧ (["I005"] : List String) ≠ [] := by
  refine ⟨?_, ?_, by decide⟩ <;> rfl

/-- C1 (amended): for every session state, running a search whose regex
pattern fails to compile (regex option enabled) surfaces the error in an
error dialog and makes `search` return an empty list - which `_on_search`
then installs as the new `searchResult` (with `searchPos` reset to 0 and the
cycle buttons disabled), discarding the prior search results rather than
leaving them untouched; no partial result is ever produced. -/
theorem c1_invalid_regex (compile : ReCompile) (index : List (String × CursorV))
    (a : SearchArgs) (s : OFState) (hre : a.use_RexEx = true)
    (hc : compile a.spelling a.caseInsensitive = none) :
    ASTOutputFrame.search compile index a = (true, [])
    ∧ OutputFrame._on_search compile index a s
        = (true, { s with searchResult := [], searchPos := 0,
                          searchFwdEnabled := false, searchBwdEnabled := false }) := by
  have hs : ASTOutputFrame.search compile index a = (true, []) := by
    simp [ASTOutputFrame.search, hre, hc]
  refine ⟨hs, ?_⟩
  simp [OutputFrame._on_search, hs, OutputFrame.update_search]

/-- C1, witness: the amended statement at a concrete state with prior result
`["I005"]` and an always-failing compile. -/
theorem c1_witness :
    ASTOutputFrame.search (fun _ _ => none) []
        { use_CursorKind := false, CursorKind := "", spelling := "(",
          caseInsensitive := false, use_RexEx := true } = (true, [])
    ∧ OutputFrame._on_search (fun _ _ => none) []
        { use_CursorKind := false, CursorKind := "", spelling := "(",
          caseInsensitive := false, use_RexEx := true }
        { curIID := none, history := [], historyPos := -1, searchResult := ["I005"],
          searchPos := 0, searchFwdEnabled := true, searchBwdEnabled := true }
        = (true, { curIID := none, history := [], historyPos := -1,
                     searchResult := [], searchPos := 0, searchFwdEnabled := false,
                     searchBwdEnabled := false }) :=
  c1_invalid_regex (fun _ _ => none) [] _ _ rfl rfl

/-! ### C4: history round trips and truncation -/

/-- The shape of the `OutputFrame` state during a pure selection session
(no search ran): only selection and history vary. -/
def navSt (h : List String) (p : Int) (c : Option String) : OFState :=
  { curIID := c, history := h, historyPos := p, searchResult := [],
    searchPos := -1, searchFwdEnabled := false, searchBwdEnabled := false }

theorem update_search_nav (h : List String) (p : Int) (c : Option String) :
    OutputFrame.update_search (navSt h p c) = navSt h p c := rfl

/-- One selection of a fresh iid in a tail-cursor session state appends to
the history and advances the cursor. -/
theorem sel_step (h : List String) (hne : h ≠ []) (iid : String) (hiid : iid ∉ h)
    (hlen : h.length < 25) :
    OutputFrame.on_cursor_selection iid
        (navSt h ((h.length : Int) - 1) (some (h.getLast hne)))
      = navSt (h ++ [iid]) (h.length : Int) (some iid) := by
  have hlast : h.getLast hne ∈ h := List.getLast_mem hne
  have hneq : some iid ≠ (navSt h ((h.length : Int) - 1) (some (h.getLast hne))).curIID := by
    simp only [navSt, ne_eq, Option.some.injEq]
    intro hEq
    exact hiid (hEq ▸ hlast)
  have haddh : OutputFrame._add_history iid
        (navSt h ((h.length : Int) - 1) (some (h.getLast hne)))
      = navSt (h ++ [iid]) (h.length : Int) (some (h.getLast hne)) := by
    have ht : ((h.length : Int) - 1 + 1).toNat = h.length := by omega
    unfold OutputFrame._add_history
    simp only [navSt, ht, List.take_length]
    split_ifs with hc1 hc2
    · exfalso
      simp only [OutputFrame._MAX_HISTORY] at hc2
      omega
    · have h3 : (h.length : Int) - 1 + 1 = (h.length : Int) := by omega
      rw [h3]
    · exfalso
      omega
    · exfalso
      omega
  unfold OutputFrame.on_cursor_selection
  rw [if_pos hneq, haddh]
  rw [show ({ navSt (h ++ [iid]) (h.length : Int) (some (h.getLast hne))
      with curIID := some iid } : OFState)
    = navSt (h ++ [iid]) (h.length : Int) (some iid) from rfl]
  exact update_search_nav _ _ _

/-- Folding fresh selections over a tail-cursor session state. -/
theorem sel_fold (rest : List String) : ∀ (done : List String) (hne : done ≠ []),
    (done ++ rest).Nodup → done.length + rest.length ≤ 25 →
    rest.foldl (fun s i => OutputFrame.on_cursor_selection i s)
        (navSt done ((done.length : Int) - 1) (some (done.getLast hne)))
      = navSt (done ++ rest) (((done ++ rest).length : Int) - 1)
          (some ((done ++ rest).getLast (by simp [hne]))) := by
  induction rest with
  | nil =>
    intro done hne _ _
    simp
  | cons i rest' ih =>
    intro done hne hnd hlen
    rw [List.foldl_cons]
    have hiid : i ∉ done := by
      intro hmem
      rw [List.nodup_append] at hnd
      exact hnd.2.2 hmem (by simp)
    have hdlen : done.length < 25 := by
      simp at hlen
      omega
    rw [sel_step done hne i hiid hdlen]
    have hne' : done ++ [i] ≠ [] := by simp
    have hlast' : (done ++ [i]).getLast hne' = i := by
      simp [List.getLast_append]
    have heq : navSt (done ++ [i]) (done.length : Int) (some i)
        = navSt (done ++ [i]) (((done ++ [i]).length : Int) - 1)
            (some ((done ++ [i]).getLast hne')) := by
      simp [hlast']
    rw [heq, ih (done ++ [i]) hne' (by simpa using hnd) (by simp at hlen ⊢; omega)]
    simp
  
theorem pyindex_nonneg {α : Type} (dflt : α) (l : List α) (i : Int) (hi : 0 ≤ i) :
    pyindex dflt l i = l.getD i.toNat dflt := by
  simp only [pyindex]
  rw [if_neg (by omega)]

theorem getLast_eq_getD (l : List String) (hne : l ≠ []) :
    l.getLast hne = l.getD (l.length - 1) "" := by
  have hlt : l.length - 1 < l.length := by
    cases l
    · simp at hne
    · simp
  rw [List.getLast_eq_getElem, List.getD_eq_getElem l "" hlt]

theorem goB_step (h : List String) (p : Nat) (c : Option String) (hp : 0 < p)
    (hlt : p < h.length) :
    OutputFrame.go_history_backward (navSt h (p : Int) c)
      = navSt h ((p - 1 : Nat) : Int) (some (h.getD (p - 1) "")) := by
  have hcond : (0 : Int) < (navSt h (p : Int) c).historyPos := by
    simp only [navSt]
    omega
  unfold OutputFrame.go_history_backward
  rw [if_pos hcond]
  show OutputFrame._update_history (navSt h ((p : Int) - 1) c) = _
  unfold OutputFrame._update_history
  have hpy : pyindex "" (navSt h ((p : Int) - 1) c).history
        (navSt h ((p : Int) - 1) c).historyPos = h.getD (p - 1) "" := by
    simp only [navSt]
    rw [pyindex_nonneg _ _ _ (by omega)]
    congr 1
    omega
  have hcast : ((p : Int) - 1) = ((p - 1 : Nat) : Int) := by omega
  rw [hpy, ← hcast]
  rfl

theorem goF_step (h : List String) (p : Nat) (c : Option String) (hlt : p + 1 < h.length) :
    OutputFrame.go_history_forward (navSt h (p : Int) c)
      = navSt h ((p + 1 : Nat) : Int) (some (h.getD (p + 1) "")) := by
  have hcond : (navSt h (p : Int) c).historyPos + 1
      < ((navSt h (p : Int) c).history.length : Int) := by
    simp only [navSt]
    omega
  unfold OutputFrame.go_history_forward
  rw [if_pos hcond]
  show OutputFrame._update_history (navSt h ((p : Int) + 1) c) = _
  unfold OutputFrame._update_history
  have hpy : pyindex "" (navSt h ((p : Int) + 1) c).history
        (navSt h ((p : Int) + 1) c).historyPos = h.getD (p + 1) "" := by
    simp only [navSt]
    rw [pyindex_nonneg _ _ _ (by omega)]
    have ht : ((p : Int) + 1).toNat = p + 1 := by omega
    rw [ht]
  have hcast : ((p : Int) + 1) = ((p + 1 : Nat) : Int) := by omega
  rw [hpy, ← hcast]
  rfl

theorem goB_iter (h : List String) : ∀ (k p : Nat), k ≤ p → p < h.length →
    OutputFrame.go_history_backward^[k] (navSt h (p : Int) (some (h.getD p "")))
      = navSt h ((p - k : Nat) : Int) (some (h.getD (p - k) "")) := by
  intro k
  induction k with
  | zero =>
    intro p _ _
    simp
  | succ k ih =>
    intro p hk hp
    rw [Function.iterate_succ_apply]
    rw [goB_step h p _ (by omega) hp]
    rw [ih (p - 1) (by omega) (by omega)]
    have harg : p - 1 - k = p - (k + 1) := by omega
    rw [harg]

theorem goF_iter (h : List String) : ∀ (k p : Nat), p + k < h.length →
    OutputFrame.go_history_forward^[k] (navSt h (p : Int) (some (h.getD p "")))
      = navSt h ((p + k : Nat) : Int) (some (h.getD (p + k) "")) := by
  intro k
  induction k with
  | zero =>
    intro p _
    simp
  | succ k ih =>
    intro p hp
    rw [Function.iterate_succ_apply]
    rw [goF_step h p _ (by omega)]
    rw [ih (p + 1) (by omega)]
    have harg : p + 1 + k = p + (k + 1) := by omega
    rw [harg]

theorem round_trip_nav (l : List String) (hne : l ≠ []) :
    (OutputFrame.go_history_forward^[l.length - 1]
        (OutputFrame.go_history_backward^[l.length - 1]
          (navSt l ((l.length : Int) - 1) (some (l.getLast hne))))).curIID
      = some (l.getLast hne) := by
  have hlen1 : 1 ≤ l.length := by
    cases l
    · simp at hne
    · simp
  have hcast : ((l.length : Int) - 1) = ((l.length - 1 : Nat) : Int) := by omega
  have hlast := getLast_eq_getD l hne
  rw [hcast, hlast]
  rw [goB_iter l (l.length - 1) (l.length - 1) le_rfl (by omega)]
  rw [show l.length - 1 - (l.length - 1) = 0 from by omega]
  rw [goF_iter l (l.length - 1) 0 (by omega)]
  simp only [navSt, Nat.zero_add]

/-- C4: (a) after `N <= 25` sequential selections of pairwise-distinct
Positions starting from the cleared state, going back `N-1` times and then
forward `N-1` times makes the last-selected Position current again; and
(b) `_add_history` with the cursor strictly before the tail truncates every
entry after the cursor before appending (`_add_history` is invoked by
`_on_cursor_selection` exactly when a new Position distinct from the current
one is selected). -/
theorem c4_history_round_trip :
    (∀ (iids : List String) (hne : iids ≠ []), iids.Nodup → iids.length ≤ 25 →
      (OutputFrame.go_history_forward^[iids.length - 1]
          (OutputFrame.go_history_backward^[iids.length - 1]
            (iids.foldl (fun s i => OutputFrame.on_cursor_selection i s)
              OutputFrame.initState))).curIID = some (iids.getLast hne))
    ∧ ∀ (s : OFState) (iid : String), s.historyPos + 1 < (s.history.length : Int) →
        s.history.length ≤ 25 →
        OutputFrame._add_history iid s
          = { s with history := s.history.take (s.historyPos + 1).toNat ++ [iid],
                     historyPos := s.historyPos + 1 } := by
  constructor
  · rintro ⟨⟩ hne hnd hlen
    · exact absurd rfl hne
    rename_i i rest
    have h0 : OutputFrame.on_cursor_selection i OutputFrame.initState
        = navSt [i] 0 (some i) := rfl
    rw [List.foldl_cons, h0]
    have hstart : navSt [i] 0 (some i)
        = navSt [i] ((([i] : List String).length : Int) - 1)
            (some (([i] : List String).getLast (by simp))) := rfl
    rw [hstart]
    rw [sel_fold rest [i] (by simp) (by simpa using hnd)
      (by have h25 := hlen; simp at h25 ⊢; omega)]
    exact round_trip_nav ([i] ++ rest) (by simp)
  · intro s iid h1 h2
    have hcond : s.historyPos < (s.history.length : Int) := by omega
    unfold OutputFrame._add_history
    rw [if_pos hcond]
    simp only [OutputFrame._MAX_HISTORY, List.length_take]
    split_ifs with hA
    · exfalso
      omega
    · rfl

/-- C4, witness: the round trip at three concrete distinct selections, and
the truncation at a concrete mid-history state. -/
theorem c4_witness :
    (OutputFrame.go_history_forward^[2]
        (OutputFrame.go_history_backward^[2]
          ((["a", "b", "c"] : List String).foldl
            (fun s i => OutputFrame.on_cursor_selection i s)
            OutputFrame.initState))).curIID = some "c"
    ∧ OutputFrame._add_history "z" (navSt ["d", "e", "f"] 0 (some "d"))
        = { navSt ["d", "e", "f"] 0 (some "d") with
              history := ["d", "z"]
              historyPos := 1 } := by
  constructor
  · exact c4_history_round_trip.1 ["a", "b", "c"] (by decide) (by decide) (by decide)
  · have h := c4_history_round_trip.2 (navSt ["d", "e", "f"] 0 (some "d")) "z"
      (by decide) (by decide)
    simpa using h

/-! ## Fold state (`FoldSectionTree` / `FoldSection`, lines 690-783)

`FoldSection` is a node of the positional fold-state tree: `startLine`
(0 = inactive), `show` (renamed `shown`: `show` is reserved in Lean),
`members` (children; Python initialises it to `None` and treats `None` and
`[]` identically in every `if self.members:` guard, so a plain list models
it), `childNr` and `deep`.  The Python `parent` back-pointer is implicit in
the tree shape of the model.  The class attribute `FoldSection.show_default`
is passed around as the `sd : Bool` parameter (it only changes in
`set_all_show`, never during a render). -/
inductive FoldSection where
  | mk (startLine : Nat) (shown : Bool) (members : List FoldSection)
      (childNr : Int) (deep : Int)

def FoldSection.startLine : FoldSection → Nat
  | .mk a _ _ _ _ => a

def FoldSection.shown : FoldSection → Bool
  | .mk _ b _ _ _ => b

def FoldSection.members : FoldSection → List FoldSection
  | .mk _ _ m _ _ => m

def FoldSection.childNr : FoldSection → Int
  | .mk _ _ _ c _ => c

def FoldSection.deep : FoldSection → Int
  | .mk _ _ _ _ d => d

/-- Model of `FoldSection.set_line(startLine)` (lines 750-751): record the start line,
which also activates the section. -/
def FoldSection.set_line (s : FoldSection) (startLine : Nat) : FoldSection :=
  match s with
  | .mk _ b m c d => .mk startLine b m c d

/-- Model of `FoldSection.get_child(num)` (lines 766-776): pad `members` up to index
`num` with fresh sections (each new one gets `show_default`, `deep + 1` and -
as in the source - `childNr = num` even for the padding siblings), and hand
out the `num`-th member.  The first component is the updated parent, the
second the child. -/
def FoldSection.get_child (sd : Bool) (s : FoldSection) (num : Nat) :
    FoldSection × FoldSection :=
  match s with
  | .mk a b m c d =>
    let m' := m ++ List.replicate (num + 1 - m.length) (FoldSection.mk 0 sd [] num (d + 1))
    (.mk a b m' c d, m'.getD num (FoldSection.mk 0 sd [] num (d + 1)))

/-- Writing an updated child back into the parent (the Python child is
mutated in place; the functional model re-installs it). -/
def FoldSection.setMember (s : FoldSection) (i : Nat) (c : FoldSection) : FoldSection :=
  match s with
  | .mk a b m cn d => .mk a b (m.set i c) cn d

mutual
/-- Model of `FoldSection.clear_lines` (lines 779-783): deactivate this section and,
recursively, all members. -/
def FoldSection.clear_lines : FoldSection → FoldSection
  | .mk _ b m c d => .mk 0 b (clearLinesList m) c d
def clearLinesList : List FoldSection → List FoldSection
  | [] => []
  | s :: rest => s.clear_lines :: clearLinesList rest
end

mutual
/-- Model of `FoldSection.set_all_show(show)` (lines 757-761). -/
def FoldSection.set_all_show (shw : Bool) : FoldSection → FoldSection
  | .mk a _ m c d => .mk a shw (setAllShowList shw m) c d
def setAllShowList (shw : Bool) : List FoldSection → List FoldSection
  | [] => []
  | s :: rest => s.set_all_show shw :: setAllShowList shw rest
end

mutual
def sizeFS : FoldSection → Nat
  | .mk _ _ m _ _ => 1 + sizeFSL m
def sizeFSL : List FoldSection → Nat
  | [] => 0
  | s :: rest => 1 + sizeFS s + sizeFSL rest
end

def sizeFSO : Option FoldSection → Nat
  | none => 0
  | some s => sizeFS s

theorem sizeFSL_members_lt (s : FoldSection) : sizeFSL s.members < sizeFS s := by
  cases s with
  | mk a b m c d => simp [sizeFS, FoldSection.members]

theorem lexNat2 {a a' b b' : Nat} (h : a' < a ∨ (a' = a ∧ b' < b)) :
    Prod.Lex (· < ·) (· < ·) (a', b') (a, b) := by
  rcases h with h | ⟨rfl, h⟩
  · exact Prod.Lex.left _ _ h
  · exact Prod.Lex.right _ h

mutual
/-- Model of `FoldSectionTree.find_section(startLine)` (lines 712-733): the outer
entry delegates to the scan of a member list (an empty list covers the
`if sectionList:` falsy branch, which also returns `None`). -/
def _find_section (startLine : Nat) (l : List FoldSection) : Option FoldSection :=
  findLoop startLine none l
termination_by (sizeFSL l, 2)
decreasing_by
  all_goals apply lexNat2
  all_goals simp [sizeFSL, sizeFSO]

/-- The `for sec in sectionList` scan: stop at the first inactive section,
return an exact hit, remember the last section starting before the line,
stop at the first one starting after it; on leaving the loop descend into
the remembered section (or fail). -/
def findLoop (startLine : Nat) (lastSec : Option FoldSection) :
    List FoldSection → Option FoldSection
  | [] => findDescend startLine lastSec
  | sec :: rest =>
    if sec.startLine == 0 then findDescend startLine lastSec
    else if sec.startLine == startLine then some sec
    else if sec.startLine < startLine then findLoop startLine (some sec) rest
    else findDescend startLine lastSec
termination_by l => (sizeFSL l + sizeFSO lastSec, 1)
decreasing_by
  all_goals apply lexNat2
  all_goals simp [sizeFSL, sizeFSO]
  all_goals omega

/-- The `if lastSec is not None: return self._find_section(startLine,
lastSec.members)` tail of the scan. -/
def findDescend (startLine : Nat) : Option FoldSection → Option FoldSection
  | none => none
  | some s => _find_section startLine s.members
termination_by lastSec => (sizeFSO lastSec, 0)
decreasing_by
  all_goals apply lexNat2
  all_goals simp [sizeFSO, sizeFSL_members_lt]
end

/-! ## The attribute renderer (`CursorOutputFrame`, lines 793-1181)

The renderer walks a clang object graph.  Its Python values are modelled by
`PyVal`:

* `cursor` - a `clang.cindex.Cursor` (rendered as a link, never recursed
  into); it carries an id used to look up its attributes in the `World` (for
  the root object) and its display string (`toStr(cursor)`);
* `comp`   - a compound value of class `Type`, `SourceRange` or `Token`
  (the classes `_add_attr_data` recurses into), identified by an id into the
  `World`; equality of two compounds models the Python `==` of such objects;
* `iter`   - an iterable that is not a text (`hasattr(__iter__)` and not
  `str`/`bytes`);
* `prim`   - any other scalar, carrying its `toStr` rendering.

Attribute resolution (`getattr`, the zero-argument instance-method
invocation with its error handling, the `TypeKind.INVALID` guard and the
`get_children` counting special case, lines 994-1026) happens on the
external clang objects; its outcome is modelled by `AttrRes`:
`ok v` (a resolved value), `err msg` (the `getattr`/call raised: the header
is tagged as an error and the body renders the leftover `None`),
`ignored` (the resolved class is in `_IGNORE_TYPES`, line 998: no section,
no output), and `tmpl rs` (the `get_template_argument_*` family, lines
1051-1063, rendering one indexed result per template argument).

The text widget output is modelled structurally: `_add_attr` produces one
`RItem.entry` holding the header line data and the body items, so that the
flat text is the in-order flattening and line numbers are threaded through
as `ln` (the `curLine` read in line 1030; only positivity matters to the
fold logic).  Tags, indentation and fold glyphs are presentation details of
the same events.  The `attr_name_marked` highlight (marker comparison, line
1036) only selects a tag and is omitted. -/

inductive CompCls where
  | type | sourceRange | token
deriving DecidableEq, Repr

inductive PyVal where
  | cursor (id : Nat) (display : String)
  | comp (cls : CompCls) (id : Nat)
  | iter (elems : List PyVal)
  | prim (s : String)

mutual
/-- Python `==` on the modelled values (for compounds: `clang` structural
equality, keyed by the world id). -/
def pyBeq : PyVal → PyVal → Bool
  | .cursor i d, .cursor j e => i == j && d == e
  | .comp c i, .comp c' j => c == c' && i == j
  | .iter es, .iter fs => pyBeqList es fs
  | .prim s, .prim t => s == t
  | _, _ => false
def pyBeqList : List PyVal → List PyVal → Bool
  | [], [] => true
  | a :: as', b :: bs => pyBeq a b && pyBeqList as' bs
  | _, _ => false
end

mutual
def sizeV : PyVal → Nat
  | .cursor _ _ => 1
  | .comp _ _ => 1
  | .prim _ => 1
  | .iter es => 1 + sizeVList es
def sizeVList : List PyVal → Nat
  | [] => 0
  | v :: vs => 1 + sizeV v + sizeVList vs
end

inductive AttrRes where
  | ok (v : PyVal)
  | err (msg : String)
  | ignored
  | tmpl (rs : List PyVal)

def sizeRes : AttrRes → Nat
  | .ok v => 1 + sizeV v
  | .err _ => 2
  | .ignored => 1
  | .tmpl rs => 1 + sizeVList rs

def resListSize : List (String × AttrRes) → Nat
  | [] => 0
  | a :: as' => 1 + sizeRes a.2 + resListSize as'

/-- The attribute tables of the external clang objects: entry `i` lists, in
`dir()` order, the attribute names and resolution outcomes of the object
with id `i` (cursor or compound).  A cyclic attribute graph is simply a
`World` whose compounds reference each other. -/
structure World where
  attrs : List (List (String × AttrRes))

def World.attrsOf (W : World) (v : PyVal) : List (String × AttrRes) :=
  match v with
  | .cursor i _ => W.attrs.getD i []
  | .comp _ i => W.attrs.getD i []
  | _ => []

/-- Model of `toStr(data)` (lines 37-54) for the modelled values. -/
def toStrV : PyVal → String
  | .cursor _ d => d
  | .comp .type i => "Type#" ++ toString i
  | .comp .sourceRange i => "SourceRange#" ++ toString i
  | .comp .token i => "Token#" ++ toString i
  | .iter _ => "<iterable>"
  | .prim s => s

/-- Model of `__class__.__name__` of a modelled value (scalar and sequence class
names are collapsed; only the clang classes matter to the renderer). -/
def clsName : PyVal → String
  | .cursor _ _ => "Cursor"
  | .comp .type _ => "Type"
  | .comp .sourceRange _ => "SourceRange"
  | .comp .token _ => "Token"
  | .iter _ => "list"
  | .prim _ => "str"

/-- Model of `is_obj_in_stack(obj, objStack)` (lines 85-90): linear scan comparing
`o == obj`, guarded by a class comparison (which structural equality of
`PyVal` subsumes). -/
def is_obj_in_stack (obj : PyVal) (objStack : List PyVal) : Bool :=
  objStack.any (fun o => clsName o == clsName obj && pyBeq o obj)

/-- Model of `str.split('\n')` (used in `_add_attr_data`, line 1139). -/
def pySplitLines (s : String) : List String :=
  (s.data.splitOn '\n').map String.mk

/-- Model of `CursorOutputFrame._MAX_DEEP` (line 803). -/
def CursorOutputFrame._MAX_DEEP : Nat := 8

/-- Model of `CursorOutputFrame._MAX_ITER_OUT` (line 804). -/
def CursorOutputFrame._MAX_ITER_OUT : Nat := 25

/-- One structural output item.  `entry` is the unit produced by one
`_add_attr` call: the header line (`[-] name (attrType):`) plus the body
items; the remaining constructors are the single-line inserts of the
renderer.  `deep` is the indentation depth (`len(objStack) - 1`). -/
inductive RItem where
  | entry (deep : Nat) (name : String) (attrType : String) (body : List RItem)
  | cursorLink (deep : Nat) (id : Nat) (display : String)
  | dataLine (deep : Nat) (text : String)
  | alreadyShown (deep : Nat) (display : String)
  | tooDeep (deep : Nat) (display : String)
  | iterOpen (deep : Nat)
  | iterClose (deep : Nat)
  | andSomeMore (deep : Nat)
  | emptyLine

mutual

/-- Model of `CursorOutputFrame._add_obj(objStack, foldNode)` (lines 1150-1162):
enumerate the attributes of the stack top and render each through
`_add_attr`, handing out child fold sections by position (`attIdx` advances
only when a section was created). -/
def _add_obj (W : World) (sd : Bool) (stack : List PyVal) (fold : FoldSection)
    (ln : Nat) : List RItem × FoldSection × Nat :=
  _add_obj_attrs W sd (W.attrsOf (stack.getLastD (.prim ""))) 0 stack fold ln
termination_by
  (CursorOutputFrame._MAX_DEEP + 1 - stack.length,
    2 + resListSize (W.attrsOf (stack.getLastD (.prim ""))), 6)
decreasing_by
  all_goals apply lexNat3
  all_goals omega

/-- The `for attrName in attrs` loop of `_add_obj` (lines 1155-1162),
including the `attrName[0] == '_'` skip. -/
def _add_obj_attrs (W : World) (sd : Bool) (l : List (String × AttrRes)) (attIdx : Nat)
    (stack : List PyVal) (fold : FoldSection) (ln : Nat) :
    List RItem × FoldSection × Nat :=
  match l with
  | [] => ([], fold, ln)
  | (name, res) :: rest =>
    if name.data.headD '?' == '_' then _add_obj_attrs W sd rest attIdx stack fold ln
    else
      let (fold₁, child) := fold.get_child sd attIdx
      let (out₁, child', ln₁, created) := _add_attr W sd stack name res child ln
      let fold₂ := fold₁.setMember attIdx child'
      let (out₂, fold₃, ln₂) :=
        _add_obj_attrs W sd rest (if created then attIdx + 1 else attIdx) stack fold₂ ln₁
      (out₁ ++ out₂, fold₃, ln₂)
termination_by (CursorOutputFrame._MAX_DEEP + 1 - stack.length, 1 + resListSize l, 5)
decreasing_by
  all_goals apply lexNat3
  all_goals simp [List.length_append, resListSize]
  all_goals omega

/-- Model of `CursorOutputFrame._add_attr(objStack, attrName, foldNode)` (lines
983-1099) for a real attribute (`index = -1`): activate the section at the
current line, emit the header, then dispatch on the resolved value:
the template-argument family, an iterable (open bracket, capped element
loop, close bracket), or `_add_attr_data`.  Returns `True` iff a section
was created (`False` for `_IGNORE_TYPES`). -/
def _add_attr (W : World) (sd : Bool) (stack : List PyVal) (name : String)
    (res : AttrRes) (fold : FoldSection) (ln : Nat) :
    List RItem × FoldSection × Nat × Bool :=
  let deep := stack.length - 1
  match res with
  | .ignored => ([], fold, ln, false)
  | .err msg =>
    let fold₁ := fold.set_line ln
    let (body, fold₂, ln₂) := _add_attr_data W sd stack fold₁ (.prim "None") false (ln + 1)
    ([.entry deep name (msg ++ " => do not use this") body], fold₂, ln₂, true)
  | .tmpl rs =>
    let fold₁ := fold.set_line ln
    if rs.isEmpty then
      ([.entry deep name "instancemethod" [.emptyLine]], fold₁, ln + 2, true)
    else
      let (body, fold₂, ln₂) := _add_tmpl_elems W sd stack 0 rs fold₁ (ln + 1)
      ([.entry deep name "instancemethod" body], fold₂, ln₂, true)
  | .ok (.iter es) =>
    let fold₁ := fold.set_line ln
    let (body, fold₂, ln₂) := _add_iter_elems W sd stack 0 es fold₁ (ln + 2)
    ([.entry deep name (clsName (.iter es))
        ([.iterOpen deep] ++ body ++ [.iterClose deep])], fold₂, ln₂ + 1, true)
  | .ok v =>
    let fold₁ := fold.set_line ln
    let (body, fold₂, ln₂) := _add_attr_data W sd stack fold₁ v false (ln + 1)
    ([.entry deep name (clsName v) body], fold₂, ln₂, true)
termination_by (CursorOutputFrame._MAX_DEEP + 1 - stack.length, sizeRes res, 4)
decreasing_by
  all_goals apply lexNat3
  all_goals simp [List.length_append, sizeRes, sizeV, sizeVList]
  all_goals omega

/-- The `for n in range(nums)` loop of the template-argument special case
(lines 1055-1062): push each indexed result and render it as an iteration
element named `num=n`. -/
def _add_tmpl_elems (W : World) (sd : Bool) (stack : List PyVal) (n : Nat)
    (rs : List PyVal) (fold : FoldSection) (ln : Nat) :
    List RItem × FoldSection × Nat :=
  match rs with
  | [] => ([], fold, ln)
  | r :: rest =>
    let (fold₁, sub) := fold.get_child sd n
    let (out₁, sub', ln₁) := _add_attr_iter W sd (stack ++ [r]) ("num=" ++ toString n) r sub ln
    let fold₂ := fold₁.setMember n sub'
    let (out₂, fold₃, ln₂) := _add_tmpl_elems W sd stack (n + 1) rest fold₂ ln₁
    (out₁ ++ out₂, fold₃, ln₂)
termination_by (CursorOutputFrame._MAX_DEEP + 1 - stack.length, sizeVList rs, 3)
decreasing_by
  all_goals apply lexNat3
  all_goals simp [List.length_append, sizeVList]
  all_goals omega

/-- The `for d in attrData` loop of the iterable branch (lines 1067-1082):
render up to `_MAX_ITER_OUT` elements, then emit the `and some more...`
marker line and stop. -/
def _add_iter_elems (W : World) (sd : Bool) (stack : List PyVal) (cnt : Nat)
    (es : List PyVal) (fold : FoldSection) (ln : Nat) :
    List RItem × FoldSection × Nat :=
  match es with
  | [] => ([], fold, ln)
  | d :: rest =>
    if cnt < CursorOutputFrame._MAX_ITER_OUT then
      let (fold₁, sub) := fold.get_child sd cnt
      let (out₁, sub', ln₁) := _add_attr_iter W sd (stack ++ [d]) (toString cnt) d sub ln
      let fold₂ := fold₁.setMember cnt sub'
      let (out₂, fold₃, ln₂) := _add_iter_elems W sd stack (cnt + 1) rest fold₂ ln₁
      (out₁ ++ out₂, fold₃, ln₂)
    else
      ([.andSomeMore (stack.length - 1)], fold, ln + 1)
termination_by (CursorOutputFrame._MAX_DEEP + 1 - stack.length, sizeVList es, 3)
decreasing_by
  all_goals apply lexNat3
  all_goals simp [List.length_append, sizeVList]
  all_goals omega

/-- Model of `_add_attr` for a value of an iterable (`index >= 0`, `isIterData`):
the value is the stack top, no resolution happens, the template-name check
cannot fire (the name is `str(cnt)` / `num=n`), and nested iterables loop
again. -/
def _add_attr_iter (W : World) (sd : Bool) (stack : List PyVal) (name : String)
    (v : PyVal) (fold : FoldSection) (ln : Nat) : List RItem × FoldSection × Nat :=
  let deep := stack.length - 1
  let fold₁ := fold.set_line ln
  match v with
  | .iter es =>
    let (body, fold₂, ln₂) := _add_iter_elems W sd stack 0 es fold₁ (ln + 2)
    ([.entry deep name (clsName (.iter es))
        ([.iterOpen deep] ++ body ++ [.iterClose deep])], fold₂, ln₂ + 1)
  | v =>
    let (body, fold₂, ln₂) := _add_attr_data W sd stack fold₁ v true (ln + 1)
    ([.entry deep name (clsName v) body], fold₂, ln₂)
termination_by (CursorOutputFrame._MAX_DEEP + 1 - stack.length, sizeV v, 2)
decreasing_by
  all_goals apply lexNat3
  all_goals simp [List.length_append, sizeV, sizeVList]
  all_goals omega

/-- Model of `CursorOutputFrame._add_attr_data(objStack, foldNode, attrData,
attrDataTag, isIterData)` (lines 1106-1145): a cursor renders as a link; a
`Type`/`SourceRange`/`Token` not already on the comparison stack recurses
into `_add_obj` below the depth cap, renders the `To deep to show` marker at
the cap, and renders the `already shown!` marker when it is on the stack
(for an iteration element the stack top - the value itself - is excluded
from the comparison, line 1118); anything else renders its `toStr` split
into one line per embedded line break. -/
def _add_attr_data (W : World) (sd : Bool) (stack : List PyVal) (fold : FoldSection)
    (v : PyVal) (isIterData : Bool) (ln : Nat) : List RItem × FoldSection × Nat :=
  let deep := stack.length - 1
  match v with
  | .cursor i d => ([.cursorLink deep i d], fold, ln + 1)
  | .comp c i =>
    let cmpStack := if isIterData then stack.dropLast else stack
    if is_obj_in_stack (.comp c i) cmpStack then
      ([.alreadyShown deep (toStrV (.comp c i))], fold, ln + 1)
    else
      if stack.length < CursorOutputFrame._MAX_DEEP then
        _add_obj W sd (stack ++ [.comp c i]) fold ln
      else
        ([.tooDeep deep (toStrV (.comp c i))], fold, ln + 1)
  | v =>
    let lines := pySplitLines (toStrV v)
    (lines.map (.dataLine deep), fold, ln + lines.length)
termination_by (CursorOutputFrame._MAX_DEEP + 1 - stack.length, sizeV v, 1)
decreasing_by
  all_goals apply lexNat3
  all_goals simp [List.length_append]
  all_goals omega

end

/-! ### `CursorOutputFrame` state and `set_cursor` -/

/-- The root section of a fresh `FoldSectionTree` (line 692:
`FoldSection(True)`, so `shown = true`, `deep = -1`, `childNr` keeps its
`-1` default, inactive). -/
def FoldSectionTree.init_root : FoldSection := .mk 0 true [] (-1) (-1)

/-- Model of `FoldSectionTree.find_section(startLine)` (lines 713-714). -/
def FoldSectionTree.find_section (root : FoldSection) (startLine : Nat) :
    Option FoldSection :=
  _find_section startLine root.members

mutual
/-- The cursors appended to `self.cursorList` by `_add_cursor` (lines
964-971), in output order: one per rendered link. -/
def collectLinks : RItem → List PyVal
  | .entry _ _ _ body => collectLinksL body
  | .cursorLink _ i d => [.cursor i d]
  | _ => []
def collectLinksL : List RItem → List PyVal
  | [] => []
  | x :: rest => collectLinks x ++ collectLinksL rest
end

/-- The modelled state of `CursorOutputFrame`: the displayed cursor, the
link list, the fold tree root (the tree object also holds the
`show_default` class attribute and the unmodelled `marker`), and the text
content (as structural items). -/
structure COF where
  cursor : Option PyVal
  cursorList : List PyVal
  foldRoot : FoldSection
  show_default : Bool
  text : List RItem

/-- Model of `CursorOutputFrame.clear()` (lines 956-961): empty the text, forget the
cursor and the link list (the fold tree is untouched). -/
def CursorOutputFrame.clear (st : COF) : COF :=
  { st with text := [], cursor := none, cursorList := [] }

/-- The full-render tail of `set_cursor` (lines 1174-1181): reset
`cursorList`, install the new cursor, delete the text and render
`_add_obj([c], root)` into the empty widget (first line = 1);
`goto_marker()` only scrolls. -/
def CursorOutputFrame.render (W : World) (st : COF) (c : PyVal) : COF :=
  let r := _add_obj W st.show_default [c] st.foldRoot 1
  { cursor := some c
    cursorList := collectLinksL r.1
    foldRoot := r.2.1
    show_default := st.show_default
    text := r.1 }

/-- Model of `CursorOutputFrame.set_cursor(c)` (lines 1164-1181): FIRST deactivate
every fold section, then bail out via `clear()` for a non-cursor, return
early (text untouched) when `c` equals the displayed cursor, and otherwise
re-render. -/
def CursorOutputFrame.set_cursor (W : World) (st : COF) (c : Option PyVal) : COF :=
  let st₀ := { st with foldRoot := st.foldRoot.clear_lines }
  match c with
  | some (PyVal.cursor i d) =>
    match st₀.cursor with
    | some (PyVal.cursor j e) =>
      if pyBeq (PyVal.cursor j e) (PyVal.cursor i d) then st₀
      else CursorOutputFrame.render W st₀ (PyVal.cursor i d)
    | _ => CursorOutputFrame.render W st₀ (PyVal.cursor i d)
  | _ => CursorOutputFrame.clear st₀

/-! ### C6: the cycle guard -/

/-- C6: whenever a compound attribute value (`Type`/`SourceRange`/`Token`)
equals a value on the comparison stack (the ancestor stack; for an iteration
element the stack minus the element itself), `_add_attr_data` emits exactly
the one-line `... already shown!` marker, leaves the fold tree untouched and
does not recurse - the output is that single item.  (Termination of the
render for arbitrary, possibly cyclic, attribute worlds is witnessed by the
renderer being a total function of the model.) -/
theorem c6_cycle_guard (W : World) (sd : Bool) (stack : List PyVal)
    (fold : FoldSection) (cls : CompCls) (i : Nat) (isIterData : Bool) (ln : Nat)
    (h : is_obj_in_stack (.comp cls i)
      (if isIterData then stack.dropLast else stack) = true) :
    _add_attr_data W sd stack fold (.comp cls i) isIterData ln
      = ([.alreadyShown (stack.length - 1) (toStrV (.comp cls i))], fold, ln + 1) := by
  simp [_add_attr_data, h]

/-- C6, witness: a `Type` value that is its own ancestor on the stack. -/
theorem c6_witness :
    is_obj_in_stack (.comp .type 3) [PyVal.cursor 0 "r", PyVal.comp .type 3] = true
    ∧ _add_attr_data ⟨[]⟩ false [PyVal.cursor 0 "r", PyVal.comp .type 3]
        (.mk 0 true [] 0 0) (.comp .type 3) false 5
      = ([.alreadyShown 1 (toStrV (.comp .type 3))], .mk 0 true [] 0 0, 6) :=
  ⟨by decide,
    c6_cycle_guard ⟨[]⟩ false [PyVal.cursor 0 "r", PyVal.comp .type 3]
      (.mk 0 true [] 0 0) .type 3 false 5 (by decide)⟩

/-! ### C7: the depth cap -/

/-- C7 (amended): for a compound value not on the comparison stack,
`_add_attr_data` at or beyond the depth cap emits exactly the one-line
`To deep to show ...` marker (no recursion, fold tree untouched), and below
the cap it recurses into `_add_obj` with a stack that stays within the cap -
so the cap bounds the compound-value descent.  (The blanket claim that no
FoldSection ever reaches the cap depth is refuted separately: iterable
elements are not depth-checked.) -/
theorem c7_depth_cap (W : World) (sd : Bool) (stack : List PyVal)
    (fold : FoldSection) (cls : CompCls) (i : Nat) (isIterData : Bool) (ln : Nat)
    (hns : is_obj_in_stack (.comp cls i)
      (if isIterData then stack.dropLast else stack) = false) :
    (CursorOutputFrame._MAX_DEEP ≤ stack.length →
      _add_attr_data W sd stack fold (.comp cls i) isIterData ln
        = ([.tooDeep (stack.length - 1) (toStrV (.comp cls i))], fold, ln + 1))
    ∧ (stack.length < CursorOutputFrame._MAX_DEEP →
      _add_attr_data W sd stack fold (.comp cls i) isIterData ln
        = _add_obj W sd (stack ++ [.comp cls i]) fold ln
      ∧ (stack ++ [PyVal.comp cls i]).length ≤ CursorOutputFrame._MAX_DEEP) := by
  constructor
  · intro hd
    rw [show _add_attr_data W sd stack fold (.comp cls i) isIterData ln
      = ([.tooDeep (stack.length - 1) (toStrV (.comp cls i))], fold, ln + 1) from by
        simp [_add_attr_data, hns]
        omega]
  · intro hd
    refine ⟨by simp [_add_attr_data, hns, hd], by simp; omega⟩

/-- C7, witness: at a full stack of eight values, an unseen `Type` attribute
value renders the truncation marker. -/
theorem c7_witness :
    is_obj_in_stack (.comp .type 0) (List.replicate 8 (PyVal.prim "p")) = false
    ∧ CursorOutputFrame._MAX_DEEP ≤ (List.replicate 8 (PyVal.prim "p")).length
    ∧ _add_attr_data ⟨[]⟩ false (List.replicate 8 (PyVal.prim "p"))
        (.mk 0 true [] 0 0) (.comp .type 0) false 9
      = ([.tooDeep 7 (toStrV (.comp .type 0))], .mk 0 true [] 0 0, 10) := by
  refine ⟨by decide, by decide, ?_⟩
  have h := (c7_depth_cap ⟨[]⟩ false (List.replicate 8 (PyVal.prim "p"))
    (.mk 0 true [] 0 0) .type 0 false 9 (by decide)).1 (by decide)
  simpa using h

mutual
/-- The maximum `deep` value occurring in a fold (sub)tree (`-2` for an
empty member list, below every real `deep`). -/
def maxDeepFS : FoldSection → Int
  | .mk _ _ m _ d => max d (maxDeepFSL m)
def maxDeepFSL : List FoldSection → Int
  | [] => -2
  | s :: rest => max (maxDeepFS s) (maxDeepFSL rest)
end

/-- An attribute world in which the root cursor has one attribute whose
value is an 8-fold nested one-element iterable. -/
def W7 : World :=
  ⟨[[("a", .ok (.iter [.iter [.iter [.iter [.iter [.iter [.iter [.iter
    [.prim "x"]]]]]]]]))]]⟩

/-- C7, counterexample: rendering `W7` creates FoldSections of depth 8 (the
iterable-element recursion of `_add_attr` is not depth-checked and calls
`get_child` before recursing), so not every FoldSection reachable from the
root has depth below the cap `_MAX_DEEP = 8`. -/
theorem c7_counterexample :
    ¬ maxDeepFS
        (_add_obj W7 true [PyVal.cursor 0 "c"] FoldSectionTree.init_root 1).2.1
      < (CursorOutputFrame._MAX_DEEP : Int) := by
  have hev : (_add_obj W7 true [PyVal.cursor 0 "c"] FoldSectionTree.init_root 1).2.1
      = FoldSection.mk 0 true [FoldSection.mk 1 true [FoldSection.mk 3 true [FoldSection.mk 5 true [FoldSection.mk 7 true [FoldSection.mk 9 true [FoldSection.mk 11 true [FoldSection.mk 13 true [FoldSection.mk 15 true [FoldSection.mk 17 true [] 0 8] 0 7] 0 6] 0 5] 0 4] 0 3] 0 2] 0 1] 0 0] (-1) (-1) := by
    simp [_add_obj, _add_obj_attrs, _add_attr, _add_iter_elems, _add_attr_iter,
      _add_attr_data, W7, World.attrsOf, FoldSection.get_child, FoldSection.setMember,
      FoldSection.set_line, FoldSectionTree.init_root, clsName, pySplitLines, toStrV,
      CursorOutputFrame._MAX_DEEP, CursorOutputFrame._MAX_ITER_OUT, is_obj_in_stack]
  rw [hev]
  simp [maxDeepFS, maxDeepFSL, CursorOutputFrame._MAX_DEEP]

/-! ### C8: iteration truncation -/

def isEntry : RItem → Bool
  | .entry _ _ _ _ => true
  | _ => false

def isMore : RItem → Bool
  | .andSomeMore _ => true
  | _ => false

def itemName : RItem → String
  | .entry _ n _ _ => n
  | _ => ""

/-- Every `_add_attr_iter` call renders exactly one top-level item: the
entry of the element, carrying its name. -/
theorem _add_attr_iter_shape (W : World) (sd : Bool) (stack : List PyVal)
    (name : String) (v : PyVal) (fold : FoldSection) (ln : Nat) :
    ∃ x f2 l2, _add_attr_iter W sd stack name v fold ln = ([x], f2, l2)
      ∧ isEntry x = true ∧ itemName x = name := by
  cases v with
  | cursor i d =>
    exact ⟨.entry (stack.length - 1) name (clsName (.cursor i d))
        (_add_attr_data W sd stack (fold.set_line ln) (.cursor i d) true (ln + 1)).1,
      (_add_attr_data W sd stack (fold.set_line ln) (.cursor i d) true (ln + 1)).2.1,
      (_add_attr_data W sd stack (fold.set_line ln) (.cursor i d) true (ln + 1)).2.2,
      by simp only [_add_attr_iter], rfl, rfl⟩
  | comp c i =>
    exact ⟨.entry (stack.length - 1) name (clsName (.comp c i))
        (_add_attr_data W sd stack (fold.set_line ln) (.comp c i) true (ln + 1)).1,
      (_add_attr_data W sd stack (fold.set_line ln) (.comp c i) true (ln + 1)).2.1,
      (_add_attr_data W sd stack (fold.set_line ln) (.comp c i) true (ln + 1)).2.2,
      by simp only [_add_attr_iter], rfl, rfl⟩
  | prim s =>
    exact ⟨.entry (stack.length - 1) name (clsName (.prim s))
        (_add_attr_data W sd stack (fold.set_line ln) (.prim s) true (ln + 1)).1,
      (_add_attr_data W sd stack (fold.set_line ln) (.prim s) true (ln + 1)).2.1,
      (_add_attr_data W sd stack (fold.set_line ln) (.prim s) true (ln + 1)).2.2,
      by simp only [_add_attr_iter], rfl, rfl⟩
  | iter es =>
    exact ⟨.entry (stack.length - 1) name (clsName (.iter es))
        ([.iterOpen (stack.length - 1)]
          ++ (_add_iter_elems W sd stack 0 es (fold.set_line ln) (ln + 2)).1
          ++ [.iterClose (stack.length - 1)]),
      (_add_iter_elems W sd stack 0 es (fold.set_line ln) (ln + 2)).2.1,
      (_add_iter_elems W sd stack 0 es (fold.set_line ln) (ln + 2)).2.2 + 1,
      by simp only [_add_attr_iter], rfl, rfl⟩

/-- The iteration loop of `_add_attr` renders one entry per element for the
first `_MAX_ITER_OUT - cnt` elements and then exactly one `and some more...`
marker (and nothing else). -/
theorem iter_elems_spec (W : World) (sd : Bool) (stack : List PyVal) :
    ∀ (es : List PyVal) (cnt : Nat) (fold : FoldSection) (ln : Nat),
    cnt ≤ CursorOutputFrame._MAX_ITER_OUT →
    ∃ A, (_add_iter_elems W sd stack cnt es fold ln).1
        = A ++ (if es.length ≤ CursorOutputFrame._MAX_ITER_OUT - cnt then []
                else [RItem.andSomeMore (stack.length - 1)])
      ∧ (∀ x ∈ A, isEntry x = true)
      ∧ A.map itemName
          = (List.range' cnt
              (min es.length (CursorOutputFrame._MAX_ITER_OUT - cnt))).map toString := by
  intro es
  induction es with
  | nil =>
    intro cnt fold ln hcnt
    exact ⟨[], by simp [_add_iter_elems], by simp, by simp⟩
  | cons d rest ih =>
    intro cnt fold ln hcnt
    by_cases hc : cnt < CursorOutputFrame._MAX_ITER_OUT
    · obtain ⟨x, f2, l2, hx, hxe, hxn⟩ :=
        _add_attr_iter_shape W sd (stack ++ [d]) (toString cnt) d
          ((fold.get_child sd cnt).2) ln
      obtain ⟨A, hA, hAe, hAn⟩ :=
        ih (cnt + 1) (((fold.get_child sd cnt).1).setMember cnt f2) l2 (by omega)
      refine ⟨x :: A, ?_, ?_, ?_⟩
      · simp only [_add_iter_elems, hc, if_true, hx, hA]
        by_cases hr : rest.length ≤ CursorOutputFrame._MAX_ITER_OUT - (cnt + 1)
        · rw [if_pos hr, if_pos (show (d :: rest).length
              ≤ CursorOutputFrame._MAX_ITER_OUT - cnt from by
            simp only [List.length_cons]
            omega)]
          simp
        · rw [if_neg hr, if_neg (show ¬ (d :: rest).length
              ≤ CursorOutputFrame._MAX_ITER_OUT - cnt from by
            simp only [List.length_cons]
            omega)]
          simp
      · intro y hy
        rcases List.mem_cons.mp hy with rfl | hy
        · exact hxe
        · exact hAe y hy
      · have hmin : min (d :: rest).length (CursorOutputFrame._MAX_ITER_OUT - cnt)
            = (min rest.length (CursorOutputFrame._MAX_ITER_OUT - (cnt + 1))) + 1 := by
          simp only [List.length_cons]
          omega
        rw [hmin, List.range'_succ, List.map_cons, List.map_cons, hxn, hAn]
    · have hcnt25 : cnt = CursorOutputFrame._MAX_ITER_OUT := by omega
      refine ⟨[], ?_, by simp, ?_⟩
      · simp only [_add_iter_elems, hc, if_false]
        rw [if_neg (by simp [hcnt25])]
        simp
      · simp [hcnt25]

/-- C8: a (non-text) iterable attribute value with more than
`_MAX_ITER_OUT = 25` elements renders exactly 25 numbered iteration entries
(named `0`..`24`, one per leading element) followed by exactly one
`and some more...` marker line and nothing further; and `_add_attr` wraps
exactly this loop output in the attribute entry between the bracket
lines. -/
theorem c8_iteration_truncation (W : World) (sd : Bool) (stack : List PyVal)
    (name : String) (es : List PyVal) (fold : FoldSection) (ln : Nat)
    (h : CursorOutputFrame._MAX_ITER_OUT < es.length) :
    (∃ A, (_add_iter_elems W sd stack 0 es fold ln).1
        = A ++ [RItem.andSomeMore (stack.length - 1)]
      ∧ A.length = CursorOutputFrame._MAX_ITER_OUT
      ∧ (∀ x ∈ A, isEntry x = true)
      ∧ A.map itemName
          = (List.range CursorOutputFrame._MAX_ITER_OUT).map toString
      ∧ ((_add_iter_elems W sd stack 0 es fold ln).1.filter isMore).length = 1)
    ∧ (_add_attr W sd stack name (.ok (.iter es)) fold ln).1
        = [RItem.entry (stack.length - 1) name "list"
            ([RItem.iterOpen (stack.length - 1)]
              ++ (_add_iter_elems W sd stack 0 es (fold.set_line ln) (ln + 2)).1
              ++ [RItem.iterClose (stack.length - 1)])] := by
  constructor
  · obtain ⟨A, hA, hAe, hAn⟩ := iter_elems_spec W sd stack es 0 fold ln (by omega)
    rw [if_neg (by omega)] at hA
    refine ⟨A, hA, ?_, hAe, ?_, ?_⟩
    · have := congrArg List.length hAn
      simp only [List.length_map, List.length_range'] at this
      omega
    · rw [hAn]
      congr 1
      rw [List.range_eq_range']
      congr 1
      omega
    · rw [hA, List.filter_append]
      have hAf : A.filter isMore = [] := by
        rw [List.filter_eq_nil]
        intro x hx
        have := hAe x hx
        cases x <;> simp_all [isEntry, isMore]
      rw [hAf]
      simp [isMore]
  · simp [_add_attr, clsName]

/-- C8, witness: a 26-element iterable. -/
theorem c8_witness :
    CursorOutputFrame._MAX_ITER_OUT
        < (List.replicate 26 (PyVal.prim "e")).length
    ∧ ∃ A, (_add_iter_elems ⟨[]⟩ false [PyVal.cursor 0 "c"] 0
          (List.replicate 26 (PyVal.prim "e")) (.mk 0 true [] 0 0) 3).1
        = A ++ [RItem.andSomeMore 0]
      ∧ A.length = CursorOutputFrame._MAX_ITER_OUT :=
  ⟨by decide, by
    obtain ⟨A, hA, hlen, _, _, _⟩ :=
      (c8_iteration_truncation ⟨[]⟩ false [PyVal.cursor 0 "c"] "x"
        (List.replicate 26 (PyVal.prim "e")) (.mk 0 true [] 0 0) 3 (by decide)).1
    exact ⟨A, by simpa using hA, hlen⟩⟩

/-! ### C9: `clear_lines` only deactivates -/

mutual
/-- Structural agreement of two fold trees on everything except
`startLine`: same `shown`, `childNr`, `deep`, and pointwise-agreeing member
lists of the same length (which also preserves every parent/child
relationship of the tree). -/
def sameButLines : FoldSection → FoldSection → Bool
  | .mk _ b m c d, .mk _ b' m' c' d' =>
    b == b' && c == c' && d == d' && sameButLinesL m m'
def sameButLinesL : List FoldSection → List FoldSection → Bool
  | [], [] => true
  | s :: r, s' :: r' => sameButLines s s' && sameButLinesL r r'
  | _, _ => false
end

mutual
/-- Every section of the tree is inactive (`startLine = 0`). -/
def allCleared : FoldSection → Bool
  | .mk a _ m _ _ => a == 0 && allClearedL m
def allClearedL : List FoldSection → Bool
  | [] => true
  | s :: r => allCleared s && allClearedL r
end

mutual
theorem clear_lines_same (s : FoldSection) : sameButLines s s.clear_lines = true := by
  cases s with
  | mk a b m c d =>
    simp [FoldSection.clear_lines, sameButLines, clear_lines_sameL m]
theorem clear_lines_sameL (l : List FoldSection) :
    sameButLinesL l (clearLinesList l) = true := by
  cases l with
  | nil => rfl
  | cons s r =>
    simp [clearLinesList, sameButLinesL, clear_lines_same s, clear_lines_sameL r]
end

mutual
theorem clear_lines_cleared (s : FoldSection) : allCleared s.clear_lines = true := by
  cases s with
  | mk a b m c d =>
    simp [FoldSection.clear_lines, allCleared, clear_lines_clearedL m]
theorem clear_lines_clearedL (l : List FoldSection) :
    allClearedL (clearLinesList l) = true := by
  cases l with
  | nil => rfl
  | cons s r =>
    simp [clearLinesList, allClearedL, clear_lines_cleared s, clear_lines_clearedL r]
end

theorem clearLinesList_length (l : List FoldSection) :
    (clearLinesList l).length = l.length := by
  induction l with
  | nil => rfl
  | cons s r ih => simp [clearLinesList, ih]

/-- C9: `clear_lines` deactivates every section (all `startLine`s become 0)
and changes nothing else: the `shown` flag, the child index, the depth and
the members structure (hence every parent link) of every section are
preserved - so a later re-render of a structurally identical node, which
reads the persisted `shown` of the very same sections via `get_child`,
sees each section's prior `shown` value. -/
theorem c9_clear_lines (s : FoldSection) :
    sameButLines s s.clear_lines = true
    ∧ allCleared s.clear_lines = true
    ∧ s.clear_lines.shown = s.shown
    ∧ s.clear_lines.childNr = s.childNr
    ∧ s.clear_lines.deep = s.deep
    ∧ s.clear_lines.members.length = s.members.length := by
  refine ⟨clear_lines_same s, clear_lines_cleared s, ?_, ?_, ?_, ?_⟩ <;>
    (cases s with
     | mk a b m c d =>
       simp [FoldSection.clear_lines, FoldSection.shown, FoldSection.childNr,
         FoldSection.deep, FoldSection.members, clearLinesList_length])

/-! ### C10: selecting the already-displayed cursor -/

/-- After `clear_lines`, the member scan of `find_section` stops at the
first (inactive) section, so the lookup fails on every member list. -/
theorem findLoop_cleared (n : Nat) (l : List FoldSection) :
    findLoop n none (clearLinesList l) = none := by
  cases l with
  | nil => simp [clearLinesList, findLoop, findDescend]
  | cons s r =>
    cases s with
    | mk a b m c d =>
      simp [clearLinesList, FoldSection.clear_lines, findLoop, FoldSection.startLine,
        findDescend]

/-- C10: `set_cursor` deactivates every fold section before it compares the
argument with the displayed cursor, so selecting the already-displayed
cursor returns early with everything but the fold tree (in particular the
text and the link list) unchanged and no section active: until the next
full render, `find_section` returns `None` for every line. -/
theorem c10_set_cursor_same (W : World) (st : COF) (i : Nat) (d : String)
    (hcur : st.cursor = some (PyVal.cursor i d)) :
    CursorOutputFrame.set_cursor W st (some (PyVal.cursor i d))
      = { st with foldRoot := st.foldRoot.clear_lines }
    ∧ ∀ n, FoldSectionTree.find_section
        (CursorOutputFrame.set_cursor W st (some (PyVal.cursor i d))).foldRoot n
          = none := by
  have h1 : CursorOutputFrame.set_cursor W st (some (PyVal.cursor i d))
      = { st with foldRoot := st.foldRoot.clear_lines } := by
    simp [CursorOutputFrame.set_cursor, hcur, pyBeq]
  refine ⟨h1, ?_⟩
  intro n
  rw [h1]
  show _find_section n ({ st with foldRoot := st.foldRoot.clear_lines } : COF).foldRoot.members
    = none
  cases hroot : st.foldRoot with
  | mk a b m c dd =>
    show _find_section n (clearLinesList m) = none
    rw [show _find_section n (clearLinesList m) = findLoop n none (clearLinesList m)
      from by simp [_find_section]]
    exact findLoop_cleared n m

/-- C10, witness: a concrete frame displaying cursor 0 with one active fold
section and some text. -/
theorem c10_witness :
    CursorOutputFrame.set_cursor ⟨[]⟩
        { cursor := some (PyVal.cursor 0 "c"), cursorList := []
          foldRoot := .mk 0 true [.mk 4 true [] 0 0] (-1) (-1)
          show_default := false, text := [.emptyLine] }
        (some (PyVal.cursor 0 "c"))
      = { cursor := some (PyVal.cursor 0 "c"), cursorList := []
          foldRoot := (FoldSection.mk 0 true [.mk 4 true [] 0 0] (-1) (-1)).clear_lines
          show_default := false, text := [.emptyLine] }
    ∧ ∀ n, FoldSectionTree.find_section
        (CursorOutputFrame.set_cursor ⟨[]⟩
          { cursor := some (PyVal.cursor 0 "c"), cursorList := []
            foldRoot := .mk 0 true [.mk 4 true [] 0 0] (-1) (-1)
            show_default := false, text := [.emptyLine] }
          (some (PyVal.cursor 0 "c"))).foldRoot n = none :=
  c10_set_cursor_same ⟨[]⟩
    { cursor := some (PyVal.cursor 0 "c"), cursorList := []
      foldRoot := .mk 0 true [.mk 4 true [] 0 0] (-1) (-1)
      show_default := false, text := [.emptyLine] } 0 "c" rfl

end PyClASVi
